import Mathlib

/-!
Verification of the AXM shard build/verify pipeline (axm-genesis).

Text is modelled as lists of Unicode code points (`List Nat`); file contents
as lists of bytes (`List Nat`).  Library primitives that the repository calls
but does not define (SHA-256, BLAKE3, Ed25519, NFC normalization, case
folding, Parquet serialization) are taken as parameters of the embedded
functions: every theorem below quantifies over them, so nothing proved
depends on their internals.
-/

namespace Axm

/-- Code points of a list of characters (concrete text constants). -/
def cl (l : List Char) : List Nat := l.map Char.toNat

/- ----------------------------------------------------------------
   Identity canonicalization (src/axm_verify/identity.py).
   ---------------------------------------------------------------- -/

/-- The character set Python `str.split()` (and `str.strip()`) treats as
whitespace: exactly the code points for which CPython's
`Py_UNICODE_ISSPACE` holds. -/
def pyWs (c : Nat) : Bool :=
  (9 ≤ c && c ≤ 13) || (28 ≤ c && c ≤ 31) || c == 32 || c == 133 || c == 160 ||
  c == 0x1680 || (0x2000 ≤ c && c ≤ 0x200A) || c == 0x2028 || c == 0x2029 ||
  c == 0x202F || c == 0x205F || c == 0x3000

/-- Unicode general category Cc (control): the C0 and C1 control blocks. -/
def isCc (c : Nat) : Bool :=
  c ≤ 0x1F || (0x7F ≤ c && c ≤ 0x9F)

/-- One step of Python `str.split()` read from the right: heading whitespace
closes the chunk under construction, anything else extends it. -/
def splitStep (c : Nat) : List Nat × List (List Nat) → List Nat × List (List Nat)
  | (cur, done) =>
    if pyWs c then ([], if cur.isEmpty then done else cur :: done)
    else (c :: cur, done)

/-- Python `t.split()`: maximal whitespace-free chunks, empties discarded. -/
def pySplit (t : List Nat) : List (List Nat) :=
  match t.foldr splitStep ([], []) with
  | (cur, done) => if cur.isEmpty then done else cur :: done

/-- Drop the Cc-category characters of one chunk
(`"".join(c for c in chunk if unicodedata.category(c) != "Cc")`). -/
def dropCc (chunk : List Nat) : List Nat :=
  chunk.filter (fun c => !(isCc c))

/-- The accumulation loop of `canonicalize`: append each cleaned chunk
unless it came out empty. -/
def partsLoop (chunks : List (List Nat)) : List (List Nat) :=
  chunks.foldl (fun parts chunk =>
    let cleaned := dropCc chunk
    if cleaned.isEmpty then parts else parts ++ [cleaned]) []

/-- `" ".join(parts)`. -/
def joinSpace : List (List Nat) → List Nat
  | [] => []
  | [p] => p
  | p :: q :: rest => p ++ 32 :: joinSpace (q :: rest)

/-- `canonicalize` from src/axm_verify/identity.py, parameterized by the two
Unicode library primitives it calls: `nfc` stands for
`unicodedata.normalize("NFC", .)` and `cf` for `str.casefold`.  The NUL
check is on the raw input, before either is applied; a NUL-containing
input raises `ValueError`, modelled as `none`. -/
def canonicalize (nfc cf : List Nat → List Nat) (text : List Nat) : Option (List Nat) :=
  if text.contains 0 then none
  else some (joinSpace (partsLoop (pySplit (cf (nfc text)))))

/-- No two adjacent characters are both whitespace. -/
def noAdjWs : List Nat → Bool
  | [] => true
  | [_] => true
  | a :: b :: t => !(pyWs a && pyWs b) && noAdjWs (b :: t)

/-- The result shape the spec promises: no leading, no trailing, and no
internal run of whitespace. -/
def noWsRuns (r : List Nat) : Bool :=
  (match r with | [] => true | c :: _ => !(pyWs c)) &&
  (match r.getLast? with | none => true | some c => !(pyWs c)) &&
  noAdjWs r

/-- `"  Hello   World  "`. -/
def helloIn : List Nat :=
  cl [' ', ' ', 'H', 'e', 'l', 'l', 'o', ' ', ' ', ' ', 'W', 'o', 'r', 'l', 'd', ' ', ' ']

/-- `"  hello   world  "`, the case fold of `helloIn`. -/
def helloFold : List Nat :=
  cl [' ', ' ', 'h', 'e', 'l', 'l', 'o', ' ', ' ', ' ', 'w', 'o', 'r', 'l', 'd', ' ', ' ']

/-- `"hello world"`. -/
def helloOut : List Nat :=
  cl ['h', 'e', 'l', 'l', 'o', ' ', 'w', 'o', 'r', 'l', 'd']

/-- Identity on code points: instantiates `nfc` on NFC-normal ASCII input. -/
def idCp (l : List Nat) : List Nat := l

/-- ASCII lowering: instantiates `cf` on ASCII input. -/
def asciiLow (l : List Nat) : List Nat :=
  l.map (fun c => if 65 ≤ c && c ≤ 90 then c + 32 else c)

/-- Every character of the list is non-whitespace. -/
def wsFree (l : List Nat) : Bool := l.all (fun c => !(pyWs c))

/-- A well-formed chunk: non-empty and whitespace-free. -/
def chunkOk (ch : List Nat) : Bool := !ch.isEmpty && wsFree ch

/- ----------------------------------------------------------------
   Canonical JSON (src/axm_build/manifest.py):
   json.dumps(obj, sort_keys=True, separators=(",", ":"),
   ensure_ascii=False), UTF-8 encoded.  JSON values are modelled with
   integer numbers (every number in a manifest is a count or an offset);
   strings are lists of code points.
   ---------------------------------------------------------------- -/

/-- JSON values as Python's `json` module sees a manifest. -/
inductive Json where
  | null : Json
  | bool (b : Bool) : Json
  | num (n : Int) : Json
  | str (s : List Nat) : Json
  | arr (xs : List Json) : Json
  | obj (kvs : List (List Nat × Json)) : Json

/-- Python string `<`: lexicographic comparison of code points. -/
def lexLt : List Nat → List Nat → Bool
  | [], [] => false
  | [], _ :: _ => true
  | _ :: _, [] => false
  | a :: as, b :: bs => if a < b then true else if b < a then false else lexLt as bs

/-- Stable insertion of a key/value pair by key order. -/
def insertPair (p : List Nat × Json) : List (List Nat × Json) → List (List Nat × Json)
  | [] => [p]
  | q :: rest => if lexLt p.1 q.1 then p :: q :: rest else q :: insertPair p rest

/-- Stable insertion sort by key, as `sorted` on dict items keyed by the
key string. -/
def sortPairs : List (List Nat × Json) → List (List Nat × Json)
  | [] => []
  | p :: rest => insertPair p (sortPairs rest)

mutual

/-- Sort object keys at every nesting level (the order `json.dumps` with
`sort_keys=True` serializes members in). -/
def sortKeys : Json → Json
  | Json.arr xs => Json.arr (sortKeysList xs)
  | Json.obj kvs => Json.obj (sortPairs (sortKeysPairs kvs))
  | j => j

def sortKeysList : List Json → List Json
  | [] => []
  | x :: xs => sortKeys x :: sortKeysList xs

def sortKeysPairs : List (List Nat × Json) → List (List Nat × Json)
  | [] => []
  | (k, v) :: rest => (k, sortKeys v) :: sortKeysPairs rest

end

/-- Decimal digits of `n`, most significant first (`fuel` bounds the
recursion; `fuel > n` suffices). -/
def natDigsAux : Nat → Nat → List Nat
  | 0, _ => []
  | fuel + 1, n =>
    if n < 10 then [48 + n] else natDigsAux fuel (n / 10) ++ [48 + n % 10]

/-- Python `repr` of a natural number. -/
def natDigs (n : Nat) : List Nat := natDigsAux (n + 1) n

/-- Python `repr` of an integer (shortest JSON form). -/
def intDigs : Int → List Nat
  | Int.ofNat n => natDigs n
  | Int.negSucc m => 45 :: natDigs (m + 1)

/-- Lowercase hex digit. -/
def hexDig (n : Nat) : Nat := if n < 10 then 48 + n else 87 + n

/-- How `json.dumps(..., ensure_ascii=False)` renders one string
character: `"` and `\` are backslash-escaped, the five short control
escapes apply, remaining control characters become lowercase `\u00xx`,
everything else (non-ASCII included) is literal. -/
def escChar (c : Nat) : List Nat :=
  if c = 34 then [92, 34]
  else if c = 92 then [92, 92]
  else if c < 32 then
    if c = 8 then [92, 98]
    else if c = 9 then [92, 116]
    else if c = 10 then [92, 110]
    else if c = 12 then [92, 102]
    else if c = 13 then [92, 114]
    else [92, 117, 48, 48, hexDig (c / 16), hexDig (c % 16)]
  else [c]

/-- Escape a whole string body. -/
def escStr (s : List Nat) : List Nat := (s.map escChar).flatten

mutual

/-- The serializer: `json.dumps` with bare `,` and `:` separators, applied
to a value whose objects are already key-sorted (`sortKeys` is the
`sort_keys=True` pre-pass). -/
def encJ : Json → List Nat
  | Json.null => [110, 117, 108, 108]
  | Json.bool true => [116, 114, 117, 101]
  | Json.bool false => [102, 97, 108, 115, 101]
  | Json.num n => intDigs n
  | Json.str s => 34 :: escStr s ++ [34]
  | Json.arr xs => 91 :: encElems xs ++ [93]
  | Json.obj kvs => 123 :: encMembers kvs ++ [125]

def encElems : List Json → List Nat
  | [] => []
  | [x] => encJ x
  | x :: y :: rest => encJ x ++ 44 :: encElems (y :: rest)

def encMembers : List (List Nat × Json) → List Nat
  | [] => []
  | [(k, v)] => 34 :: escStr k ++ 34 :: 58 :: encJ v
  | (k, v) :: q :: rest =>
    (34 :: escStr k ++ 34 :: 58 :: encJ v) ++ 44 :: encMembers (q :: rest)

end

/-- UTF-8 bytes of one code point. -/
def utf8Char (c : Nat) : List Nat :=
  if c < 0x80 then [c]
  else if c < 0x800 then [0xC0 + c / 64, 0x80 + c % 64]
  else if c < 0x10000 then
    [0xE0 + c / 4096, 0x80 + c / 64 % 64, 0x80 + c % 64]
  else [0xF0 + c / 0x40000, 0x80 + c / 4096 % 64, 0x80 + c / 64 % 64, 0x80 + c % 64]

/-- UTF-8 bytes of a code-point string. -/
def utf8Enc (s : List Nat) : List Nat := (s.map utf8Char).flatten

/-- `dumps_canonical_json`: canonical serialization to UTF-8 bytes. -/
def dumpsCanonicalJson (m : Json) : List Nat := utf8Enc (encJ (sortKeys m))

/-- ASCII decimal digit. -/
def isDig (c : Nat) : Bool := 48 ≤ c && c ≤ 57

/-- JSON inter-token whitespace. -/
def jWs (c : Nat) : Bool := c == 32 || c == 9 || c == 10 || c == 13

/-- Skip JSON whitespace. -/
def skipWs : List Nat → List Nat
  | [] => []
  | c :: rest => if jWs c then skipWs rest else c :: rest

/-- Consume a run of decimal digits, accumulating their value. -/
def digsAcc (acc : Nat) : List Nat → Nat × List Nat
  | [] => (acc, [])
  | c :: rest => if isDig c then digsAcc (acc * 10 + (c - 48)) rest else (acc, c :: rest)

/-- Parse the digits after a minus sign. -/
def parseIntNeg : List Nat → Option (Int × List Nat)
  | [] => none
  | d :: rest' =>
    if isDig d then
      match digsAcc (d - 48) rest' with
      | (n, r) => some (-(n : Int), r)
    else none

/-- Parse a JSON integer token (the number fragment the canonical encoder
emits; fractions and exponents are outside the manifest grammar). -/
def parseIntTok : List Nat → Option (Int × List Nat)
  | [] => none
  | c :: rest =>
    if c = 45 then parseIntNeg rest
    else if isDig c then
      match digsAcc (c - 48) rest with
      | (n, r) => some ((n : Int), r)
    else none

/-- Value of one hex digit, either case. -/
def hexVal (c : Nat) : Option Nat :=
  if 48 ≤ c ∧ c ≤ 57 then some (c - 48)
  else if 97 ≤ c ∧ c ≤ 102 then some (c - 87)
  else if 65 ≤ c ∧ c ≤ 70 then some (c - 55)
  else none

/-- Decode one short escape character. -/
def escDecode (e : Nat) : Option Nat :=
  if e = 34 then some 34
  else if e = 92 then some 92
  else if e = 47 then some 47
  else if e = 98 then some 8
  else if e = 102 then some 12
  else if e = 110 then some 10
  else if e = 114 then some 13
  else if e = 116 then some 9
  else none

mutual

/-- Parse a JSON string body after the opening quote: literal characters,
short escapes and `\uXXXX`; raw control characters are rejected as a
strict decoder does. -/
def parseStrBody : List Nat → Option (List Nat × List Nat)
  | [] => none
  | c :: rest =>
    if c = 34 then some ([], rest)
    else if c = 92 then parseEscSeq rest
    else if c < 32 then none
    else
      match parseStrBody rest with
      | some (s, r) => some (c :: s, r)
      | none => none

/-- Parse what follows a backslash inside a string literal. -/
def parseEscSeq : List Nat → Option (List Nat × List Nat)
  | [] => none
  | e :: rest' =>
    if e = 117 then parseHex4 rest'
    else
      match escDecode e with
      | some d =>
        match parseStrBody rest' with
        | some (s, r) => some (d :: s, r)
        | none => none
      | none => none

/-- Parse the four hex digits of a `\uXXXX` escape. -/
def parseHex4 : List Nat → Option (List Nat × List Nat)
  | h1 :: h2 :: h3 :: h4 :: rest'' =>
    match hexVal h1, hexVal h2, hexVal h3, hexVal h4 with
    | some v1, some v2, some v3, some v4 =>
      match parseStrBody rest'' with
      | some (s, r) => some ((((v1 * 16 + v2) * 16 + v3) * 16 + v4) :: s, r)
      | none => none
    | _, _, _, _ => none
  | _ => none

end

mutual

/-- A standard recursive-descent JSON reader on the manifest grammar.
`fuel` bounds value nesting; `decodeJson` supplies enough for any input
it is given. -/
def parseVal : Nat → List Nat → Option (Json × List Nat)
  | 0, _ => none
  | fuel + 1, s =>
    match skipWs s with
    | [] => none
    | c :: rest =>
      if c = 110 then
        if rest.take 3 = [117, 108, 108] then some (Json.null, rest.drop 3) else none
      else if c = 116 then
        if rest.take 3 = [114, 117, 101] then some (Json.bool true, rest.drop 3) else none
      else if c = 102 then
        if rest.take 4 = [97, 108, 115, 101] then some (Json.bool false, rest.drop 4)
        else none
      else if c = 34 then
        match parseStrBody rest with
        | some (str, r) => some (Json.str str, r)
        | none => none
      else if c = 91 then
        match skipWs rest with
        | [] => none
        | d :: r =>
          if d = 93 then some (Json.arr [], r)
          else
            match parseElems fuel (d :: r) with
            | some (xs, r') => some (Json.arr xs, r')
            | none => none
      else if c = 123 then
        match skipWs rest with
        | [] => none
        | d :: r =>
          if d = 125 then some (Json.obj [], r)
          else
            match parseMembers fuel (d :: r) with
            | some (kvs, r') => some (Json.obj kvs, r')
            | none => none
      else
        match parseIntTok (c :: rest) with
        | some (n, r) => some (Json.num n, r)
        | none => none

def parseElems : Nat → List Nat → Option (List Json × List Nat)
  | 0, _ => none
  | fuel + 1, s =>
    match parseVal fuel s with
    | none => none
    | some (v, r) =>
      match skipWs r with
      | [] => none
      | d :: r' =>
        if d = 44 then
          match parseElems fuel r' with
          | some (vs, r'') => some (v :: vs, r'')
          | none => none
        else if d = 93 then some ([v], r')
        else none

def parseMembers : Nat → List Nat → Option (List (List Nat × Json) × List Nat)
  | 0, _ => none
  | fuel + 1, s =>
    match skipWs s with
    | [] => none
    | c :: rest =>
      if c = 34 then
        match parseStrBody rest with
        | none => none
        | some (k, r) =>
          match skipWs r with
          | [] => none
          | d :: r' =>
            if d = 58 then
              match parseVal fuel r' with
              | none => none
              | some (v, r'') =>
                match skipWs r'' with
                | [] => none
                | e :: r3 =>
                  if e = 44 then
                    match parseMembers fuel r3 with
                    | some (kvs, r4) => some ((k, v) :: kvs, r4)
                    | none => none
                  else if e = 125 then some ([(k, v)], r3)
                  else none
            else none
      else none

end

/-- Decode a complete JSON document: one value, then only whitespace. -/
def decodeJson (s : List Nat) : Option Json :=
  match parseVal (s.length + 2) s with
  | some (v, rest) => if skipWs rest = [] then some v else none
  | none => none

mutual

/-- Fuel sufficient for `parseVal` on this value's encoding. -/
def pvFuel : Json → Nat
  | Json.arr xs => peFuel xs + 1
  | Json.obj kvs => pmFuel kvs + 1
  | _ => 1

def peFuel : List Json → Nat
  | [] => 1
  | x :: xs => max (pvFuel x) (peFuel xs) + 1

def pmFuel : List (List Nat × Json) → Nat
  | [] => 1
  | (_, v) :: kvs => max (pvFuel v) (pmFuel kvs) + 1

end

/-- A valid Unicode scalar value (no lone surrogates, in range). -/
def scalarOk (c : Nat) : Bool := c < 0x110000 && !(0xD800 ≤ c && c ≤ 0xDFFF)

/-- `k` is not a key of the tail. -/
def keyNotIn (k : List Nat) : List (List Nat × Json) → Bool
  | [] => true
  | p :: rest => !(p.1 == k) && keyNotIn k rest

mutual

/-- Well-formed manifest value: object keys are distinct at every level
(Python dicts cannot repeat a key) and text is made of Unicode scalar
values (what `.encode("utf-8")` accepts). -/
def wfJson : Json → Bool
  | Json.str s => s.all scalarOk
  | Json.arr xs => wfList xs
  | Json.obj kvs => wfPairs kvs
  | _ => true

def wfList : List Json → Bool
  | [] => true
  | x :: xs => wfJson x && wfList xs

def wfPairs : List (List Nat × Json) → Bool
  | [] => true
  | (k, v) :: rest =>
    k.all scalarOk && keyNotIn k rest && wfJson v && wfPairs rest

end

/-- Strictly ascending adjacent keys. -/
def pairsStrict : List (List Nat × Json) → Bool
  | [] => true
  | [_] => true
  | p :: q :: rest => lexLt p.1 q.1 && pairsStrict (q :: rest)

mutual

/-- Keys are sorted strictly ascending at every nesting level. -/
def objKeysSorted : Json → Bool
  | Json.arr xs => oksList xs
  | Json.obj kvs => pairsStrict kvs && oksPairs kvs
  | _ => true

def oksList : List Json → Bool
  | [] => true
  | x :: xs => objKeysSorted x && oksList xs

def oksPairs : List (List Nat × Json) → Bool
  | [] => true
  | (_, v) :: rest => objKeysSorted v && oksPairs rest

end

/-- First value stored under key `k` (Python `dict` lookup). -/
def lookupKey (k : List Nat) : List (List Nat × Json) → Option Json
  | [] => none
  | (k', v) :: rest => if k' == k then some v else lookupKey k rest

/-- Python `==` on decoded JSON values: structural on scalars and arrays,
key-set/value equality on objects (insertion order is irrelevant to
`dict.__eq__`). -/
inductive PyEq : Json → Json → Prop where
  | null : PyEq Json.null Json.null
  | bool (b : Bool) : PyEq (Json.bool b) (Json.bool b)
  | num (n : Int) : PyEq (Json.num n) (Json.num n)
  | str (s : List Nat) : PyEq (Json.str s) (Json.str s)
  | arr {xs ys : List Json} : xs.length = ys.length →
      (∀ i x y, xs.get? i = some x → ys.get? i = some y → PyEq x y) →
      PyEq (Json.arr xs) (Json.arr ys)
  | obj {a b : List (List Nat × Json)} : a.length = b.length →
      (∀ k, (lookupKey k a).isSome → (lookupKey k b).isSome) →
      (∀ k v w, lookupKey k a = some v → lookupKey k b = some w → PyEq v w) →
      PyEq (Json.obj a) (Json.obj b)

/-- Characters that never start a JSON value. -/
def vstart (c : Nat) : Bool :=
  c == 110 || c == 116 || c == 102 || c == 34 || c == 91 || c == 123 ||
  c == 45 || isDig c

mutual

/-- The state machine behind `noWsOutside`: the Bool tracks whether the
scan is inside a string literal (a backslash skips the next character). -/
def noWsScan : Bool → List Nat → Bool
  | _, [] => true
  | false, c :: rest =>
    if jWs c then false
    else if c = 34 then noWsScan true rest
    else noWsScan false rest
  | true, c :: rest =>
    if c = 34 then noWsScan false rest
    else if c = 92 then noWsSkip rest
    else noWsScan true rest

/-- Skip the character after an in-string backslash. -/
def noWsSkip : List Nat → Bool
  | [] => true
  | _ :: rest' => noWsScan true rest'

end

/-- No whitespace occurs between tokens (outside string literals). -/
def noWsOutside (s : List Nat) : Bool := noWsScan false s

/-- A sample manifest-like value: unsorted keys, nesting, a non-ASCII
character (233). -/
def mSample : Json :=
  Json.obj
    [(cl ['s', 'p', 'e', 'c'], Json.str (cl ['1', '.', '0'])),
     (cl ['a'], Json.obj [(cl ['n'], Json.num 2), (cl ['m'], Json.null)]),
     (cl ['k'], Json.str [233]),
     (cl ['b'], Json.arr [Json.bool true, Json.num (-7)])]

/- ----------------------------------------------------------------
   Manifest checks (src/axm_verify/logic.py: _is_hex_64, _read_manifest)
   and verifier error codes (src/axm_verify/const.py).
   ---------------------------------------------------------------- -/

/-- Verifier error codes (class ErrorCode). -/
inductive ECode where
  | layoutMissing | layoutDirty | layoutType | dotfile
  | manifestSyntax | manifestSchema
  | sigMissing | sigInvalid | merkleMismatch
  | schemaRead | schemaMissing | schemaType | schemaNull | schemaEnum
  | idEntity | idClaim | refOrphan | refSource | refRead
deriving DecidableEq

/-- An ASCII hexadecimal digit, either case. -/
def isHexDigit (c : Nat) : Bool :=
  isDig c || (97 ≤ c && c ≤ 102) || (65 ≤ c && c ≤ 70)

mutual

/-- Hex digits with single underscores between them (may be empty). -/
def hexDigitsOk : List Nat → Bool
  | [] => true
  | c :: rest => if c = 95 then hexUnd rest else isHexDigit c && hexDigitsOk rest

/-- After an underscore a digit must follow. -/
def hexUnd : List Nat → Bool
  | [] => false
  | d :: rest' => isHexDigit d && hexDigitsOk rest'

end

/-- A non-empty digit run, not starting with an underscore. -/
def hexRun : List Nat → Bool
  | [] => false
  | c :: rest => isHexDigit c && hexDigitsOk rest

/-- What may follow a `0x` prefix (one underscore is allowed directly
after the prefix). -/
def pyHexAfterPre : List Nat → Bool
  | [] => false
  | c :: rest => if c = 95 then hexRun rest else hexRun (c :: rest)

/-- What may follow a leading `0`. -/
def pyHexZero : List Nat → Bool
  | [] => true
  | d :: rest =>
    if d = 120 ∨ d = 88 then pyHexAfterPre rest
    else hexDigitsOk (d :: rest)

/-- Digits of the number, with an optional `0x`/`0X` prefix. -/
def pyHexNum : List Nat → Bool
  | [] => false
  | c :: rest => if c = 48 then pyHexZero rest else hexRun (c :: rest)

/-- Optional sign. -/
def pyHexSigned : List Nat → Bool
  | [] => false
  | c :: rest => if c = 43 ∨ c = 45 then pyHexNum rest else pyHexNum (c :: rest)

/-- Drop leading Python whitespace. -/
def stripWsL : List Nat → List Nat
  | [] => []
  | c :: t => if pyWs c then stripWsL t else c :: t

/-- Drop leading and trailing Python whitespace. -/
def stripWs (s : List Nat) : List Nat := (stripWsL (stripWsL s.reverse).reverse)

/-- Whether CPython `int(s, 16)` succeeds, on the ASCII fragment:
surrounding whitespace, an optional sign, an optional `0x` prefix,
hex digits of either case with single underscores.  (Python additionally
maps non-ASCII decimal digits; those are outside this model.) -/
def pyIntHexOk (s : List Nat) : Bool := pyHexSigned (stripWs s)

/-- `_is_hex_64`: the argument is a string of length 64 that `int(s, 16)`
parses.  A missing or non-string value fails the `isinstance` check. -/
def isHex64 : Option Json → Bool
  | some (Json.str s) => s.length == 64 && pyIntHexOk s
  | _ => false

/-- `"integrity"`. -/
def intKey : List Nat := cl ['i', 'n', 't', 'e', 'g', 'r', 'i', 't', 'y']

/-- `"merkle_root"`. -/
def merkleKey : List Nat :=
  cl ['m', 'e', 'r', 'k', 'l', 'e', '_', 'r', 'o', 'o', 't']

/-- The merkle-root check of `_read_manifest`, applied to the parsed
manifest object: `integrity` defaults to `{}`, must be a dict, and its
`merkle_root` must satisfy `_is_hex_64`; otherwise `E_MANIFEST_SCHEMA`. -/
def readManifestMerkle (kvs : List (List Nat × Json)) : Except ECode Unit :=
  match (lookupKey intKey kvs).getD (Json.obj []) with
  | Json.obj ikvs =>
    if isHex64 (lookupKey merkleKey ikvs) then Except.ok ()
    else Except.error ECode.manifestSchema
  | _ => Except.error ECode.manifestSchema

/-- Sixty-four uppercase `A` characters: uppercase hex of length 64. -/
def upRootA : List Nat := List.replicate 64 65

/- ----------------------------------------------------------------
   Merkle root (src/axm_verify/crypto.py and src/axm_build/merkle.py):
   BLAKE3 is the parameter `H` (bytes to 32-byte digest).
   ---------------------------------------------------------------- -/

/-- `"manifest.json"`. -/
def manifestName : List Nat :=
  cl ['m', 'a', 'n', 'i', 'f', 'e', 's', 't', '.', 'j', 's', 'o', 'n']

/-- `"sig/"`. -/
def sigPre : List Nat := cl ['s', 'i', 'g', '/']

/-- `rel == "manifest.json" or rel.startswith("sig/")`. -/
def isExcluded (rel : List Nat) : Bool :=
  rel == manifestName || sigPre.isPrefixOf rel

/-- Hex digest (lowercase), `bytes.hex()`. -/
def hexStr (bytes : List Nat) : List Nat :=
  (bytes.map (fun b => [hexDig (b / 16), hexDig (b % 16)])).flatten

/-- One Merkle leaf: `BLAKE3(relpath_utf8 || 0x00 || file_bytes)`. -/
def merkleLeaf (H : List Nat → List Nat) (f : List Nat × List Nat) : List Nat :=
  H (utf8Enc f.1 ++ 0 :: f.2)

/-- Stable insertion by UTF-8 byte order of the relpath. -/
def insertFile (x : List Nat × List Nat) :
    List (List Nat × List Nat) → List (List Nat × List Nat)
  | [] => [x]
  | y :: rest =>
    if lexLt (utf8Enc x.1) (utf8Enc y.1) then x :: y :: rest
    else y :: insertFile x rest

/-- `files.sort(key=lambda x: x[0].encode("utf-8"))`. -/
def sortFiles : List (List Nat × List Nat) → List (List Nat × List Nat)
  | [] => []
  | x :: rest => insertFile x (sortFiles rest)

/-- One pairing level: adjacent pairs hashed, an odd last leaf duplicated
(`right = leaves[i+1] if i+1 < len else left`). -/
def foldPairs (H : List Nat → List Nat) : List (List Nat) → List (List Nat)
  | [] => []
  | [x] => [H (x ++ x)]
  | x :: y :: rest => H (x ++ y) :: foldPairs H rest

/-- The `while len(leaves) > 1` loop (`fuel` bounds the iteration count;
the level count never exceeds the leaf count). -/
def foldLevelsAux (H : List Nat → List Nat) : Nat → List (List Nat) → List Nat
  | _, [] => []
  | _, [x] => x
  | 0, x :: _ :: _ => x
  | fuel + 1, x :: y :: rest => foldLevelsAux H fuel (foldPairs H (x :: y :: rest))

/-- Fold the leaves up to the root digest. -/
def merkleFold (H : List Nat → List Nat) (leaves : List (List Nat)) : List Nat :=
  foldLevelsAux H leaves.length leaves

/-- `compute_merkle_root` on the collected `(relpath, bytes)` list:
exclusion, byte-order sort, leaf hashing, pairwise fold; no files means
`BLAKE3(b"").hexdigest()`. -/
def merkleRootOfFiles (H : List Nat → List Nat)
    (files : List (List Nat × List Nat)) : List Nat :=
  let inc := files.filter (fun f => !(isExcluded f.1))
  let leaves := (sortFiles inc).map (merkleLeaf H)
  if leaves.isEmpty then hexStr (H []) else hexStr (merkleFold H leaves)

/-- Stable insertion of a `(sort key, leaf)` pair by key. -/
def insertLeaf (x : List Nat × List Nat) :
    List (List Nat × List Nat) → List (List Nat × List Nat)
  | [] => [x]
  | y :: rest => if lexLt x.1 y.1 then x :: y :: rest else y :: insertLeaf x rest

/-- Sort leaves by their relpath key. -/
def sortLeaves : List (List Nat × List Nat) → List (List Nat × List Nat)
  | [] => []
  | x :: rest => insertLeaf x (sortLeaves rest)

/-- Modelled from the spec's words (section 4.4): exclude `manifest.json`
and everything under `sig/`, compute each included file's leaf, sort the
leaves by the UTF-8 byte order of their relpath, fold upwards duplicating
an odd last leaf, and return the hex digest; no included files gives
`BLAKE3(empty)`. -/
def merkleRootSpec (H : List Nat → List Nat)
    (files : List (List Nat × List Nat)) : List Nat :=
  let included := files.filter
    (fun f => !(f.1 == manifestName || sigPre.isPrefixOf f.1))
  let keyedLeaves := included.map (fun f => (utf8Enc f.1, merkleLeaf H f))
  match (sortLeaves keyedLeaves).map Prod.snd with
  | [] => hexStr (H [])
  | l :: ls => hexStr (merkleFold H (l :: ls))

/-- The two-file example: `a.txt = "a\n"`, `b.txt = "b\n"`. -/
def fileA : List Nat × List Nat := (cl ['a', '.', 't', 'x', 't'], [97, 10])

/-- See `fileA`. -/
def fileB : List Nat × List Nat := (cl ['b', '.', 't', 'x', 't'], [98, 10])

/- ----------------------------------------------------------------
   Shard directory model and the verifier's tree walks
   (src/axm_verify/logic.py: _validate_root_layout, content scan;
   src/axm_verify/crypto.py: compute_merkle_root).  `os.walk` with
   `followlinks=False` classifies a symlink to a directory among the
   directory names and a symlink to a file among the file names; both
   walks prune symlinked directories from `dirnames` before descending.
   The walk visits a directory's files before its subdirectories; this
   model interleaves them in listing order, which only permutes the
   collected file list (it is sorted before hashing) and cannot change
   any Boolean outcome below.
   ---------------------------------------------------------------- -/

/-- A directory entry: a regular file with its bytes, a directory with
named children, or a symbolic link (to a file or to a directory; the
link target never matters to the walks above). -/
inductive FSEntry where
  | file (content : List Nat) : FSEntry
  | dir (entries : List (List Nat × FSEntry)) : FSEntry
  | linkFile : FSEntry
  | linkDir : FSEntry

/-- `name.startswith(".")`. -/
def startsDot : List Nat → Bool
  | 46 :: _ => true
  | _ => false

mutual

/-- The dotfile walk of `_validate_root_layout`: symlinked directories
are pruned, symlinked files are skipped (`continue`), directory names
are never checked, and a regular file must not start with a dot. -/
def dotOkEntries : List (List Nat × FSEntry) → Bool
  | [] => true
  | (name, e) :: rest => dotOkOne name e && dotOkEntries rest

def dotOkOne (name : List Nat) : FSEntry → Bool
  | FSEntry.file _ => !(startsDot name)
  | FSEntry.dir entries => dotOkEntries entries
  | FSEntry.linkFile => true
  | FSEntry.linkDir => true

end

/-- `"sig"`. -/
def sigName : List Nat := cl ['s', 'i', 'g']

/-- `"content"`. -/
def contentName : List Nat := cl ['c', 'o', 'n', 't', 'e', 'n', 't']

/-- `"graph"`. -/
def graphName : List Nat := cl ['g', 'r', 'a', 'p', 'h']

/-- `"evidence"`. -/
def evidenceName : List Nat := cl ['e', 'v', 'i', 'd', 'e', 'n', 'c', 'e']

/-- `REQUIRED_ROOT_ITEMS`. -/
def requiredRootItems : List (List Nat) :=
  [manifestName, sigName, contentName, graphName, evidenceName]

/-- `_validate_root_layout` on a directory root: the top-level names must
equal `REQUIRED_ROOT_ITEMS` as sets (no missing, no extra), then the
dotfile walk must find nothing.  The inner contents of `sig/`, `graph/`
and `evidence/` are not inspected here.  (A non-directory root fails
with `E_LAYOUT_MISSING`; symlinked roots are outside this model.) -/
def validateRootLayout : FSEntry → Bool
  | FSEntry.dir entries =>
    let items := entries.map Prod.fst
    requiredRootItems.all (fun r => items.contains r) &&
    items.all (fun i => requiredRootItems.contains i) &&
    dotOkEntries entries
  | _ => false

/-- What `compute_merkle_root` can raise. -/
inductive MerkleRaise where
  | symlinkRaise | sizeRaise | countRaise | totalRaise
deriving DecidableEq

/-- 512 MiB. -/
def maxMerkleFileBytes : Nat := 536870912

/-- 2 GiB. -/
def maxMerkleTotalBytes : Nat := 2147483648

/-- 100000. -/
def maxMerkleFiles : Nat := 100000

/-- POSIX join of a path prefix and a name. -/
def joinPath (pre name : List Nat) : List Nat :=
  if pre.isEmpty then name else pre ++ 47 :: name

mutual

/-- File collection of `compute_merkle_root`: symlinked directories are
pruned, a symlinked file raises, `manifest.json` and `sig/` paths are
skipped, size/count/total limits raise. -/
def mwEntries (pre : List Nat) :
    List (List Nat × FSEntry) → List (List Nat × List Nat) → Nat → Nat →
    Except MerkleRaise (List (List Nat × List Nat) × Nat × Nat)
  | [], acc, cnt, tot => Except.ok (acc, cnt, tot)
  | (name, e) :: rest, acc, cnt, tot =>
    match mwOne (joinPath pre name) e acc cnt tot with
    | Except.ok (acc', cnt', tot') => mwEntries pre rest acc' cnt' tot'
    | Except.error r => Except.error r

def mwOne (rel : List Nat) :
    FSEntry → List (List Nat × List Nat) → Nat → Nat →
    Except MerkleRaise (List (List Nat × List Nat) × Nat × Nat)
  | FSEntry.linkFile, _, _, _ => Except.error MerkleRaise.symlinkRaise
  | FSEntry.linkDir, acc, cnt, tot => Except.ok (acc, cnt, tot)
  | FSEntry.dir entries, acc, cnt, tot => mwEntries rel entries acc cnt tot
  | FSEntry.file content, acc, cnt, tot =>
    if isExcluded rel then Except.ok (acc, cnt, tot)
    else if maxMerkleFileBytes < content.length then
      Except.error MerkleRaise.sizeRaise
    else if maxMerkleFiles < cnt + 1 then Except.error MerkleRaise.countRaise
    else if maxMerkleTotalBytes < tot + content.length then
      Except.error MerkleRaise.totalRaise
    else Except.ok (acc ++ [(rel, content)], cnt + 1, tot + content.length)

end

/-- `compute_merkle_root` over a shard tree: collect (raising on file
symlinks), sort by relpath bytes, hash leaves, fold. -/
def computeMerkleRootTree (H : List Nat → List Nat) (root : FSEntry) :
    Except MerkleRaise (List Nat) :=
  match root with
  | FSEntry.dir entries =>
    match mwEntries [] entries [] 0 0 with
    | Except.ok (files, _, _) =>
      let leaves := (sortFiles files).map (merkleLeaf H)
      Except.ok (if leaves.isEmpty then hexStr (H []) else hexStr (merkleFold H leaves))
    | Except.error r => Except.error r
  | _ => Except.error MerkleRaise.symlinkRaise

/-- 10000 content files. -/
def maxContentFiles : Nat := 10000

mutual

/-- The content-directory walk of `verify_shard` stage 6: symlinked
directories are pruned, a symlinked file records `E_REF_READ` and
continues, an oversized file records `E_REF_READ` and is skipped, the
count and total limits record `E_REF_READ` and abort (the raised
`RuntimeError` is caught and recorded as a second `E_REF_READ`);
remaining files are hashed with `sha`. -/
def csEntries (sha : List Nat → List Nat) :
    List (List Nat × FSEntry) → List ECode → List (List Nat) → Nat → Nat →
    List ECode × List (List Nat)
  | [], errs, hashes, _, _ => (errs, hashes)
  | (_, e) :: rest, errs, hashes, cnt, tot =>
    match csOne sha e errs hashes cnt tot with
    | Except.ok (errs', hashes', cnt', tot') =>
      csEntries sha rest errs' hashes' cnt' tot'
    | Except.error (errs', hashes') => (errs', hashes')

def csOne (sha : List Nat → List Nat) :
    FSEntry → List ECode → List (List Nat) → Nat → Nat →
    Except (List ECode × List (List Nat))
      (List ECode × List (List Nat) × Nat × Nat)
  | FSEntry.linkDir, errs, hashes, cnt, tot => Except.ok (errs, hashes, cnt, tot)
  | FSEntry.linkFile, errs, hashes, cnt, tot =>
    Except.ok (errs ++ [ECode.refRead], hashes, cnt, tot)
  | FSEntry.dir entries, errs, hashes, cnt, tot =>
    match csEntries sha entries errs hashes cnt tot with
    | (errs', hashes') => Except.ok (errs', hashes', cnt, tot)
  | FSEntry.file content, errs, hashes, cnt, tot =>
    if maxContentFiles < cnt + 1 then
      Except.error (errs ++ [ECode.refRead, ECode.refRead], hashes)
    else if maxMerkleFileBytes < content.length then
      Except.ok (errs ++ [ECode.refRead], hashes, cnt + 1, tot)
    else if maxMerkleTotalBytes < tot + content.length then
      Except.error (errs ++ [ECode.refRead, ECode.refRead], hashes)
    else Except.ok (errs ++ [], hashes ++ [sha content], cnt + 1, tot + content.length)

end

/-- The content scan applied to a content directory tree. -/
def contentScan (sha : List Nat → List Nat) : FSEntry → List ECode × List (List Nat)
  | FSEntry.dir entries => csEntries sha entries [] [] 0 0
  | _ => ([], [])

/-- `"manifest.sig"`. -/
def manifestSigName : List Nat :=
  cl ['m', 'a', 'n', 'i', 'f', 'e', 's', 't', '.', 's', 'i', 'g']

/-- `"publisher.pub"`. -/
def publisherPubName : List Nat :=
  cl ['p', 'u', 'b', 'l', 'i', 's', 'h', 'e', 'r', '.', 'p', 'u', 'b']

/-- `"extra.bin"`. -/
def extraBinName : List Nat := cl ['e', 'x', 't', 'r', 'a', '.', 'b', 'i', 'n']

/-- `"source.txt"`. -/
def sourceTxtName : List Nat :=
  cl ['s', 'o', 'u', 'r', 'c', 'e', '.', 't', 'x', 't']

/-- `"sub"`. -/
def subName : List Nat := cl ['s', 'u', 'b']

/-- `{entities, claims, provenance}.parquet` and `spans.parquet`. -/
def entitiesParquetName : List Nat :=
  cl ['e', 'n', 't', 'i', 't', 'i', 'e', 's', '.', 'p', 'a', 'r', 'q', 'u', 'e', 't']

/-- See `entitiesParquetName`. -/
def claimsParquetName : List Nat :=
  cl ['c', 'l', 'a', 'i', 'm', 's', '.', 'p', 'a', 'r', 'q', 'u', 'e', 't']

/-- See `entitiesParquetName`. -/
def provenanceParquetName : List Nat :=
  cl ['p', 'r', 'o', 'v', 'e', 'n', 'a', 'n', 'c', 'e', '.', 'p', 'a', 'r',
    'q', 'u', 'e', 't']

/-- See `entitiesParquetName`. -/
def spansParquetName : List Nat :=
  cl ['s', 'p', 'a', 'n', 's', '.', 'p', 'a', 'r', 'q', 'u', 'e', 't']

/-- A well-formed content directory with a single source file. -/
def contentBase : FSEntry := FSEntry.dir [(sourceTxtName, FSEntry.file [97])]

/-- The same content directory plus a symlinked subdirectory. -/
def contentWithLink : FSEntry :=
  FSEntry.dir [(sourceTxtName, FSEntry.file [97]), (subName, FSEntry.linkDir)]

/-- A layout-complete shard tree. -/
def shardBase : FSEntry :=
  FSEntry.dir
    [(manifestName, FSEntry.file [123, 125]),
     (sigName, FSEntry.dir
       [(manifestSigName, FSEntry.file [1]), (publisherPubName, FSEntry.file [2])]),
     (contentName, contentBase),
     (graphName, FSEntry.dir
       [(entitiesParquetName, FSEntry.file [3]), (claimsParquetName, FSEntry.file [4]),
        (provenanceParquetName, FSEntry.file [5])]),
     (evidenceName, FSEntry.dir [(spansParquetName, FSEntry.file [6])])]

/-- `shardBase` with an extra regular file `sig/extra.bin`. -/
def shardExtraSig : FSEntry :=
  FSEntry.dir
    [(manifestName, FSEntry.file [123, 125]),
     (sigName, FSEntry.dir
       [(manifestSigName, FSEntry.file [1]), (publisherPubName, FSEntry.file [2]),
        (extraBinName, FSEntry.file [9])]),
     (contentName, contentBase),
     (graphName, FSEntry.dir
       [(entitiesParquetName, FSEntry.file [3]), (claimsParquetName, FSEntry.file [4]),
        (provenanceParquetName, FSEntry.file [5])]),
     (evidenceName, FSEntry.dir [(spansParquetName, FSEntry.file [6])])]

/-- `shardBase` with a symlinked directory `content/sub`. -/
def shardLinkDir : FSEntry :=
  FSEntry.dir
    [(manifestName, FSEntry.file [123, 125]),
     (sigName, FSEntry.dir
       [(manifestSigName, FSEntry.file [1]), (publisherPubName, FSEntry.file [2])]),
     (contentName, contentWithLink),
     (graphName, FSEntry.dir
       [(entitiesParquetName, FSEntry.file [3]), (claimsParquetName, FSEntry.file [4]),
        (provenanceParquetName, FSEntry.file [5])]),
     (evidenceName, FSEntry.dir [(spansParquetName, FSEntry.file [6])])]

/- ----------------------------------------------------------------
   The generic compiler (src/axm_build/compiler_generic.py), with its
   helpers from src/axm_build/common.py (write_parquet_deterministic
   row sorting), src/axm_build/manifest.py and src/axm_build/merkle.py.
   Library primitives are parameters: `normalize` is
   normalize_source_text, `shaHex` the SHA-256 hex digest of bytes,
   `b32sha` the b32encode(sha256(utf8)[:15]).lower().rstrip("=") step
   shared by _b32_id and the identity functions, `nfc`/`cf` the Unicode
   primitives of canonicalize, `H` BLAKE3, `pub`/`sign` the Ed25519 key
   operations, `parqE`/`parqC`/`parqP`/`parqS` the Parquet encodings of
   the (sorted) row lists, and `verdict` the final verify_shard run as a
   function of the written shard tree.  Candidate fields hold scalar
   JSON values (containers and lone surrogates in candidate fields are
   outside the model). -/

/-- A scalar JSON value of a candidate record field. -/
inductive JVal where
  | null : JVal
  | bool (b : Bool) : JVal
  | num (n : Int) : JVal
  | str (s : List Nat) : JVal
deriving DecidableEq

/-- One parsed candidates.jsonl record: each field is present (`some`)
or absent (`none`), covering the keys the compiler reads. -/
structure Cand where
  subjectF : Option JVal
  predicateF : Option JVal
  objectF : Option JVal
  objectTypeF : Option JVal
  evidenceF : Option JVal
  evidenceQuoteF : Option JVal
  tierF : Option JVal
deriving DecidableEq

/-- Python str() of a scalar value. -/
def pyStr : JVal → List Nat
  | JVal.null => cl ['N', 'o', 'n', 'e']
  | JVal.bool true => cl ['T', 'r', 'u', 'e']
  | JVal.bool false => cl ['F', 'a', 'l', 's', 'e']
  | JVal.num n => intDigs n
  | JVal.str s => s

/-- Python truthiness of a scalar value. -/
def pyTruthy : JVal → Bool
  | JVal.null => false
  | JVal.bool b => b
  | JVal.num n => n != 0
  | JVal.str s => !s.isEmpty

mutual

/-- Decimal digits with single underscores between them (may be empty). -/
def decDigitsOk : List Nat → Bool
  | [] => true
  | c :: rest => if c = 95 then decUnd rest else isDig c && decDigitsOk rest

/-- After an underscore a decimal digit must follow. -/
def decUnd : List Nat → Bool
  | [] => false
  | d :: rest => isDig d && decDigitsOk rest

end

/-- A non-empty decimal run, not starting with an underscore. -/
def decRun : List Nat → Bool
  | [] => false
  | c :: rest => isDig c && decDigitsOk rest

/-- Value of a decimal digit run, underscores skipped. -/
def decValAux (acc : Nat) : List Nat → Nat
  | [] => acc
  | c :: t => if c = 95 then decValAux acc t else decValAux (acc * 10 + (c - 48)) t

/-- CPython int(s) on a string: surrounding whitespace, an optional
sign, decimal digits with single underscores; no base prefix.  (Python
additionally maps non-ASCII decimal digits; those are outside this
model, as in pyIntHexOk.) -/
def pyIntDec (s0 : List Nat) : Option Int :=
  match stripWs s0 with
  | 43 :: t => if decRun t then some (Int.ofNat (decValAux 0 t)) else none
  | 45 :: t => if decRun t then some (-(Int.ofNat (decValAux 0 t))) else none
  | s => if decRun s then some (Int.ofNat (decValAux 0 s)) else none

/-- Python int() of a scalar value: None raises (`none`), a bool is
0 or 1, a number is itself, a string is parsed in base 10. -/
def pyInt : JVal → Option Int
  | JVal.null => none
  | JVal.bool b => some (if b then 1 else 0)
  | JVal.num n => some n
  | JVal.str s => pyIntDec s

/-- str(c.get(key, "")).strip() for a candidate field. -/
def getStr (f : Option JVal) : List Nat := stripWs (pyStr (f.getD (JVal.str [])))

/-- `"entity"`. -/
def entityLit : List Nat := cl ['e', 'n', 't', 'i', 't', 'y']

/-- `"literal:string"`. -/
def litStringLit : List Nat :=
  cl ['l', 'i', 't', 'e', 'r', 'a', 'l', ':', 's', 't', 'r', 'i', 'n', 'g']

/-- `"literal:integer"`. -/
def litIntegerLit : List Nat :=
  cl ['l', 'i', 't', 'e', 'r', 'a', 'l', ':', 'i', 'n', 't', 'e', 'g', 'e', 'r']

/-- `"literal:decimal"`. -/
def litDecimalLit : List Nat :=
  cl ['l', 'i', 't', 'e', 'r', 'a', 'l', ':', 'd', 'e', 'c', 'i', 'm', 'a', 'l']

/-- `"literal:boolean"`. -/
def litBooleanLit : List Nat :=
  cl ['l', 'i', 't', 'e', 'r', 'a', 'l', ':', 'b', 'o', 'o', 'l', 'e', 'a', 'n']

/-- VALID_OBJECT_TYPES. -/
def validObjectTypes : List (List Nat) :=
  [entityLit, litStringLit, litIntegerLit, litDecimalLit, litBooleanLit]

/-- c.get("object_type", "entity"), the raw value. -/
def objTypeOf (c : Cand) : JVal := c.objectTypeF.getD (JVal.str entityLit)

/-- The object_type as a string (guarded by objTypeValidB, which only
accepts string values). -/
def objTypeStrOf (c : Cand) : List Nat :=
  match objTypeOf c with
  | JVal.str s => s
  | _ => []

/-- obj_type in VALID_OBJECT_TYPES: a set of strings, so a non-string
value never matches. -/
def objTypeValidB (c : Cand) : Bool :=
  match objTypeOf c with
  | JVal.str s => validObjectTypes.contains s
  | _ => false

/-- c.get("evidence") or c.get("evidence_quote"): the first operand if
truthy, else the second (an absent key reads as None). -/
def evidenceOf (c : Cand) : JVal :=
  let e1 := c.evidenceF.getD JVal.null
  if pyTruthy e1 then e1 else c.evidenceQuoteF.getD JVal.null

/-- Lines 147-149: int(c.get("tier", 0)), any exception giving 0. -/
def tierRaw (c : Cand) : Int := (pyInt (c.tierF.getD (JVal.num 0))).getD 0

/-- Lines 146-151: the coerced tier, forced to 0 when the coerced value
is not in VALID_TIERS. -/
def tierOf (c : Cand) : Int :=
  if ([0, 1, 2, 3, 4] : List Int).contains (tierRaw c) then tierRaw c else 0

/-- Python dict insertion: overwrite in place, else append. -/
def dinsert (k v : List Nat) : List (List Nat × List Nat) → List (List Nat × List Nat)
  | [] => [(k, v)]
  | (k0, v0) :: rest => if k0 == k then (k0, v) :: rest else (k0, v0) :: dinsert k v rest

/-- Python dict.get. -/
def dget (k : List Nat) : List (List Nat × List Nat) → Option (List Nat)
  | [] => none
  | (k0, v0) :: rest => if k0 == k then some v0 else dget k rest

/-- bytes.find: the first index where the needle occurs. -/
def bytesFind (nee : List Nat) : List Nat → Option Nat
  | [] => if nee.isEmpty then some 0 else none
  | a :: t =>
    if nee.isPrefixOf (a :: t) then some 0 else (bytesFind nee t).map (fun i => i + 1)

/-- bytes.count scan (non-overlapping, left to right; a match advances
past the matched bytes). `fuel` bounds the scan; the haystack length
plus one suffices. -/
def bytesCountAux (nee : List Nat) : Nat → List Nat → Nat
  | 0, _ => 0
  | _ + 1, [] => if nee.isEmpty then 1 else 0
  | fuel + 1, a :: t =>
    if nee.isPrefixOf (a :: t) then 1 + bytesCountAux nee fuel (List.drop (nee.length - 1) t)
    else bytesCountAux nee fuel t

/-- bytes.count: non-overlapping occurrences. -/
def bytesCount (nee hay : List Nat) : Nat := bytesCountAux nee (hay.length + 1) hay

/-- `"e_"`. -/
def ePre : List Nat := cl ['e', '_']

/-- `"c_"`. -/
def cPre : List Nat := cl ['c', '_']

/-- `"p_"`. -/
def pPre : List Nat := cl ['p', '_']

/-- `"s_"`. -/
def sPre : List Nat := cl ['s', '_']

/-- _b32_id: prefix + b32encode(sha256(utf8(data))[:15]).lower()
without padding, the digest step being the parameter b32sha. -/
def b32IdM (b32sha : List Nat → List Nat) (pre data : List Nat) : List Nat :=
  pre ++ b32sha (utf8Enc data)

/-- recompute_entity_id: canonicalize both parts (a NUL raises,
modelled as none) and hash "canon(ns)\x00canon(label)". -/
def recomputeEntityId (b32sha nfc cf : List Nat → List Nat) (ns label : List Nat) :
    Option (List Nat) :=
  match canonicalize nfc cf ns, canonicalize nfc cf label with
  | some a, some b => some (b32IdM b32sha ePre (a ++ 0 :: b))
  | _, _ => none

/-- recompute_claim_id: canonicalize the predicate, keep an entity
object verbatim but canonicalize a literal object, and hash
"subject\x00pred\x00object_type\x00object". -/
def recomputeClaimId (b32sha nfc cf : List Nat → List Nat)
    (subject predS obj objType : List Nat) : Option (List Nat) :=
  match canonicalize nfc cf predS with
  | none => none
  | some pc =>
    match (if objType == entityLit then some obj else canonicalize nfc cf obj) with
    | none => none
    | some ov =>
      some (b32IdM b32sha cPre (subject ++ 0 :: (pc ++ 0 :: (objType ++ 0 :: ov))))

/-- Pass 1 for one candidate (lines 105-115): record the subject's
entity id, and the object's too when the raw object_type equals
"entity"; a canonicalize failure aborts (`none`). -/
def pass1Step (b32sha nfc cf : List Nat → List Nat) (ns : List Nat) (c : Cand)
    (d : List (List Nat × List Nat)) : Option (List (List Nat × List Nat)) :=
  let subj := getStr c.subjectF
  if subj.isEmpty then some d
  else
    match recomputeEntityId b32sha nfc cf ns subj with
    | none => none
    | some sid =>
      let d1 := dinsert subj sid d
      if objTypeOf c == JVal.str entityLit then
        let obj := getStr c.objectF
        if obj.isEmpty then some d1
        else
          match recomputeEntityId b32sha nfc cf ns obj with
          | none => none
          | some oid => some (dinsert obj oid d1)
      else some d1

/-- Pass 1 over all candidates. -/
def pass1 (b32sha nfc cf : List Nat → List Nat) (ns : List Nat) :
    List Cand → List (List Nat × List Nat) → Option (List (List Nat × List Nat))
  | [], d => some d
  | c :: rest, d =>
    match pass1Step b32sha nfc cf ns c d with
    | none => none
    | some d1 => pass1 b32sha nfc cf ns rest d1

/-- `"concept"`. -/
def conceptLit : List Nat := cl ['c', 'o', 'n', 'c', 'e', 'p', 't']

/-- An entities.parquet row. -/
structure EntityRow where
  entityId : List Nat
  nsF : List Nat
  label : List Nat
  entityType : List Nat
deriving DecidableEq

/-- A claims.parquet row. -/
structure ClaimRow where
  claimId : List Nat
  subject : List Nat
  predicate : List Nat
  objectV : List Nat
  objectType : List Nat
  tier : Int
deriving DecidableEq

/-- A provenance.parquet row. -/
structure ProvRow where
  provenanceId : List Nat
  claimId : List Nat
  sourceHash : List Nat
  byteStart : Nat
  byteEnd : Nat
deriving DecidableEq

/-- A spans.parquet row. -/
structure SpanRow where
  spanId : List Nat
  sourceHash : List Nat
  byteStart : Nat
  byteEnd : Nat
  text : List Nat
deriving DecidableEq

/-- Lines 117-126: entity rows from the dict, in insertion order. -/
def entRowsOf (ns : List Nat) (d : List (List Nat × List Nat)) : List EntityRow :=
  d.map (fun kv => ⟨kv.2, ns, kv.1, conceptLit⟩)

/-- What pass 2 can raise: a canonicalize ValueError from an identity
recomputation, or the ambiguous-evidence ValueError re-raised at line
168 (only the "Evidence not found" message is caught). -/
inductive P2Err where
  | identityErr | ambiguousErr
deriving DecidableEq

/-- entities.get(label) or recompute_entity_id(ns, label): the stored
id if present and non-empty, else a fresh recomputation. -/
def getOrRecompute (b32sha nfc cf : List Nat → List Nat) (ns : List Nat)
    (d : List (List Nat × List Nat)) (label : List Nat) : Option (List Nat) :=
  match dget label d with
  | some v => if v.isEmpty then recomputeEntityId b32sha nfc cf ns label else some v
  | none => recomputeEntityId b32sha nfc cf ns label

/-- The UTF-8 bytes of str(evidence), the needle of _find_span_strict. -/
def needleOf (c : Cand) : List Nat := utf8Enc (pyStr (evidenceOf c))

/-- byte_start of the unique occurrence (bytes.find). -/
def spanStart (contentBytes : List Nat) (c : Cand) : Nat :=
  (bytesFind (needleOf c) contentBytes).getD 0

/-- byte_end = byte_start + len(needle_bytes). -/
def spanStop (contentBytes : List Nat) (c : Cand) : Nat :=
  spanStart contentBytes c + (needleOf c).length

/-- provenance_id = _b32_id("p_", source_hash\x00start\x00end). -/
def provIdOf (b32sha : List Nat → List Nat) (sourceHash : List Nat)
    (bs be : Nat) : List Nat :=
  b32IdM b32sha pPre (sourceHash ++ 0 :: (natDigs bs ++ 0 :: natDigs be))

/-- span_id = _b32_id("s_", source_hash\x00start\x00end\x00evidence). -/
def spanIdOf (b32sha : List Nat → List Nat) (sourceHash : List Nat)
    (bs be : Nat) (ev : List Nat) : List Nat :=
  b32IdM b32sha sPre (sourceHash ++ 0 :: (natDigs bs ++ 0 :: (natDigs be ++ 0 :: ev)))

/-- Pass 2 for one candidate (lines 133-202): gate on non-empty subject,
predicate and truthy evidence, then on a valid object_type; coerce the
tier; resolve the subject id and the object value; search the evidence
bytes (zero occurrences skips, several abort); build the three rows. -/
def pass2Step (b32sha nfc cf : List Nat → List Nat) (ns : List Nat)
    (d : List (List Nat × List Nat)) (contentBytes sourceHash : List Nat)
    (c : Cand) : Except P2Err (Option (ClaimRow × ProvRow × SpanRow)) :=
  if (getStr c.subjectF).isEmpty || (getStr c.predicateF).isEmpty ||
      !(pyTruthy (evidenceOf c)) then Except.ok none
  else if !(objTypeValidB c) then Except.ok none
  else
    match getOrRecompute b32sha nfc cf ns d (getStr c.subjectF) with
    | none => Except.error P2Err.identityErr
    | some subjId =>
      match (if objTypeStrOf c = entityLit then
              getOrRecompute b32sha nfc cf ns d (getStr c.objectF)
             else some (getStr c.objectF)) with
      | none => Except.error P2Err.identityErr
      | some objVal =>
        if bytesCount (needleOf c) contentBytes = 0 then Except.ok none
        else if 1 < bytesCount (needleOf c) contentBytes then
          Except.error P2Err.ambiguousErr
        else
          match recomputeClaimId b32sha nfc cf subjId (getStr c.predicateF) objVal
              (objTypeStrOf c) with
          | none => Except.error P2Err.identityErr
          | some cid =>
            Except.ok (some
              (⟨cid, subjId, getStr c.predicateF, objVal, objTypeStrOf c, tierOf c⟩,
               ⟨provIdOf b32sha sourceHash (spanStart contentBytes c)
                  (spanStop contentBytes c), cid, sourceHash,
                spanStart contentBytes c, spanStop contentBytes c⟩,
               ⟨spanIdOf b32sha sourceHash (spanStart contentBytes c)
                  (spanStop contentBytes c) (pyStr (evidenceOf c)), sourceHash,
                spanStart contentBytes c, spanStop contentBytes c,
                pyStr (evidenceOf c)⟩))

/-- Pass 2 over all candidates, accumulating the three row lists. -/
def pass2 (b32sha nfc cf : List Nat → List Nat) (ns : List Nat)
    (d : List (List Nat × List Nat)) (contentBytes sourceHash : List Nat) :
    List Cand → List ClaimRow → List ProvRow → List SpanRow →
    Except P2Err (List ClaimRow × List ProvRow × List SpanRow)
  | [], cr, pr, sr => Except.ok (cr, pr, sr)
  | c :: rest, cr, pr, sr =>
    match pass2Step b32sha nfc cf ns d contentBytes sourceHash c with
    | Except.error e => Except.error e
    | Except.ok none => pass2 b32sha nfc cf ns d contentBytes sourceHash rest cr pr sr
    | Except.ok (some (a, p, sp)) =>
      pass2 b32sha nfc cf ns d contentBytes sourceHash rest
        (cr ++ [a]) (pr ++ [p]) (sr ++ [sp])

/-- Stable insertion by a string key (Python sorted is stable). -/
def insRowBy {A : Type} (key : A → List Nat) (x : A) : List A → List A
  | [] => [x]
  | y :: t => if lexLt (key y) (key x) then y :: insRowBy key x t else x :: y :: t

/-- write_parquet_deterministic row sorting: sorted(rows, key=r[sort_key]). -/
def sortRowsBy {A : Type} (key : A → List Nat) : List A → List A
  | [] => []
  | x :: t => insRowBy key x (sortRowsBy key t)

/-- The compiler configuration strings. -/
structure CfgStrs where
  nsV : List Nat
  publisherId : List Nat
  publisherName : List Nat
  createdAt : List Nat
  sourceName : List Nat
deriving DecidableEq

/-- The compiler's inputs: existence of the two input paths, the decoded
source text (none = a UnicodeDecodeError from the strict read), whether
candidates.jsonl parses, and the parsed candidate records. -/
structure CompileIn where
  sourceExists : Bool
  sourceText : Option (List Nat)
  candidatesExists : Bool
  candsOk : Bool
  cands : List Cand
deriving DecidableEq

/-- How a compiler run ends: an uncaught exception, or a return value. -/
inductive BuildExn where
  | srcMissing | candMissing | decodeErr | candParseErr | identityErr | ambiguousErr
deriving DecidableEq

/-- See BuildExn. -/
inductive BuildOutcome where
  | exn (e : BuildExn) : BuildOutcome
  | ret (b : Bool) : BuildOutcome
deriving DecidableEq

/-- "content/source.txt" and friends. -/
def contentSourcePath : List Nat := joinPath contentName sourceTxtName

/-- See contentSourcePath. -/
def graphEntitiesPath : List Nat := joinPath graphName entitiesParquetName

/-- See contentSourcePath. -/
def graphClaimsPath : List Nat := joinPath graphName claimsParquetName

/-- See contentSourcePath. -/
def graphProvenancePath : List Nat := joinPath graphName provenanceParquetName

/-- See contentSourcePath. -/
def evidenceSpansPath : List Nat := joinPath evidenceName spansParquetName

/-- See contentSourcePath. -/
def sigPubPath : List Nat := joinPath sigName publisherPubName

/-- See contentSourcePath. -/
def sigSigPath : List Nat := joinPath sigName manifestSigName

/-- `"spec_version"`. -/
def specVersionKey : List Nat :=
  cl ['s', 'p', 'e', 'c', '_', 'v', 'e', 'r', 's', 'i', 'o', 'n']

/-- `"1.0.0"`. -/
def specVersionVal : List Nat := cl ['1', '.', '0', '.', '0']

/-- `"shard_id"`. -/
def shardIdKey : List Nat := cl ['s', 'h', 'a', 'r', 'd', '_', 'i', 'd']

/-- `"shard_blake3_"`. -/
def shardPre : List Nat :=
  cl ['s', 'h', 'a', 'r', 'd', '_', 'b', 'l', 'a', 'k', 'e', '3', '_']

/-- `"created_at"`. -/
def createdAtKey : List Nat :=
  cl ['c', 'r', 'e', 'a', 't', 'e', 'd', '_', 'a', 't']

/-- `"metadata"`. -/
def metadataKey : List Nat := cl ['m', 'e', 't', 'a', 'd', 'a', 't', 'a']

/-- `"title"`. -/
def titleKey : List Nat := cl ['t', 'i', 't', 'l', 'e']

/-- `"namespace"`. -/
def namespaceKey : List Nat :=
  cl ['n', 'a', 'm', 'e', 's', 'p', 'a', 'c', 'e']

/-- `"publisher"`. -/
def publisherKey : List Nat :=
  cl ['p', 'u', 'b', 'l', 'i', 's', 'h', 'e', 'r']

/-- `"id"`. -/
def idKey : List Nat := cl ['i', 'd']

/-- `"name"`. -/
def nameKey : List Nat := cl ['n', 'a', 'm', 'e']

/-- `"license"`. -/
def licenseKey : List Nat := cl ['l', 'i', 'c', 'e', 'n', 's', 'e']

/-- `"spdx"`. -/
def spdxKey : List Nat := cl ['s', 'p', 'd', 'x']

/-- `"UNLICENSED"`. -/
def spdxVal : List Nat :=
  cl ['U', 'N', 'L', 'I', 'C', 'E', 'N', 'S', 'E', 'D']

/-- `"notes"`. -/
def notesKey : List Nat := cl ['n', 'o', 't', 'e', 's']

/-- `"Generic build"`. -/
def notesVal : List Nat :=
  cl ['G', 'e', 'n', 'e', 'r', 'i', 'c', ' ', 'b', 'u', 'i', 'l', 'd']

/-- `"sources"`. -/
def sourcesKey : List Nat := cl ['s', 'o', 'u', 'r', 'c', 'e', 's']

/-- `"path"`. -/
def pathKey : List Nat := cl ['p', 'a', 't', 'h']

/-- `"hash"`. -/
def hashKey : List Nat := cl ['h', 'a', 's', 'h']

/-- `"algorithm"`. -/
def algorithmKey : List Nat :=
  cl ['a', 'l', 'g', 'o', 'r', 'i', 't', 'h', 'm']

/-- `"blake3"`. -/
def blake3Lit : List Nat := cl ['b', 'l', 'a', 'k', 'e', '3']

/-- `"statistics"`. -/
def statisticsKey : List Nat :=
  cl ['s', 't', 'a', 't', 'i', 's', 't', 'i', 'c', 's']

/-- `"entities"`. -/
def entStatKey : List Nat :=
  cl ['e', 'n', 't', 'i', 't', 'i', 'e', 's']

/-- `"claims"`. -/
def claimsStatKey : List Nat := cl ['c', 'l', 'a', 'i', 'm', 's']

/-- The manifest literal of lines 215-225 (dumps_canonical_json sorts
its keys). -/
def manifestJson (cfg : CfgStrs) (root sourceHash : List Nat)
    (nEnt nClaims : Nat) : Json :=
  Json.obj
    [(specVersionKey, Json.str specVersionVal),
     (shardIdKey, Json.str (shardPre ++ root)),
     (createdAtKey, Json.str cfg.createdAt),
     (metadataKey, Json.obj
       [(titleKey, Json.str cfg.sourceName), (namespaceKey, Json.str cfg.nsV)]),
     (publisherKey, Json.obj
       [(idKey, Json.str cfg.publisherId), (nameKey, Json.str cfg.publisherName)]),
     (licenseKey, Json.obj
       [(spdxKey, Json.str spdxVal), (notesKey, Json.str notesVal)]),
     (sourcesKey, Json.arr
       [Json.obj [(pathKey, Json.str contentSourcePath), (hashKey, Json.str sourceHash)]]),
     (intKey, Json.obj
       [(algorithmKey, Json.str blake3Lit), (merkleKey, Json.str root)]),
     (statisticsKey, Json.obj
       [(entStatKey, Json.num (Int.ofNat nEnt)),
        (claimsStatKey, Json.num (Int.ofNat nClaims))])]

/-- compile_generic_shard as a function from the inputs and the
pre-existing out_dir contents to the outcome and the final out_dir
contents (relpath to bytes; empty directories are not tracked).  The
input checks and the strict read happen before the rmtree of line
84-85, so those exceptions leave `pre` in place; every later path has
discarded `pre` and starts from the fresh content/source.txt write. -/
def compileModel
    (normalize shaHex b32sha nfc cf H sign : List Nat → List Nat)
    (parqE : List EntityRow → List Nat) (parqC : List ClaimRow → List Nat)
    (parqP : List ProvRow → List Nat) (parqS : List SpanRow → List Nat)
    (pub : List Nat) (verdict : List (List Nat × List Nat) → Bool)
    (cfg : CfgStrs) (inp : CompileIn) (pre : List (List Nat × List Nat)) :
    BuildOutcome × List (List Nat × List Nat) :=
  if !inp.sourceExists then (BuildOutcome.exn BuildExn.srcMissing, pre)
  else if !inp.candidatesExists then (BuildOutcome.exn BuildExn.candMissing, pre)
  else
    match inp.sourceText with
    | none => (BuildOutcome.exn BuildExn.decodeErr, pre)
    | some raw =>
      let contentBytes := utf8Enc (normalize raw)
      let sourceHash := shaHex contentBytes
      let fs1 := dinsert contentSourcePath contentBytes []
      if !inp.candsOk then (BuildOutcome.exn BuildExn.candParseErr, fs1)
      else if inp.cands.isEmpty then (BuildOutcome.ret false, fs1)
      else
        match pass1 b32sha nfc cf cfg.nsV inp.cands [] with
        | none => (BuildOutcome.exn BuildExn.identityErr, fs1)
        | some entities =>
          match pass2 b32sha nfc cf cfg.nsV entities contentBytes sourceHash
              inp.cands [] [] [] with
          | Except.error P2Err.identityErr =>
            (BuildOutcome.exn BuildExn.identityErr, fs1)
          | Except.error P2Err.ambiguousErr =>
            (BuildOutcome.exn BuildExn.ambiguousErr, fs1)
          | Except.ok (claimRows, provRows, spanRows) =>
            if claimRows.isEmpty then (BuildOutcome.ret false, fs1)
            else
              let entRows := entRowsOf cfg.nsV entities
              let fsA := dinsert graphEntitiesPath
                (parqE (sortRowsBy (fun r => r.entityId) entRows)) fs1
              let fsB := dinsert graphClaimsPath
                (parqC (sortRowsBy (fun r => r.claimId) claimRows)) fsA
              let fsC := dinsert graphProvenancePath
                (parqP (sortRowsBy (fun r => r.provenanceId) provRows)) fsB
              let fsD := dinsert evidenceSpansPath
                (parqS (sortRowsBy (fun r => r.spanId) spanRows)) fsC
              let root := merkleRootOfFiles H fsD
              let mBytes := dumpsCanonicalJson
                (manifestJson cfg root sourceHash entRows.length claimRows.length)
              let fsE := dinsert manifestName mBytes fsD
              let fsF := dinsert sigPubPath pub fsE
              let fsG := dinsert sigSigPath (sign mBytes) fsF
              (BuildOutcome.ret (verdict fsG), fsG)

/-- `"s"`, `"p"`, `"o"`, `"x"` and friends: concrete test strings. -/
def sLit : List Nat := cl ['s']

/-- See sLit. -/
def pLit : List Nat := cl ['p']

/-- See sLit. -/
def oLit : List Nat := cl ['o']

/-- See sLit. -/
def xLit : List Nat := cl ['x']

/-- `"zz"`. -/
def zzLit : List Nat := cl ['z', 'z']

/-- `"ab"`. -/
def abLit : List Nat := cl ['a', 'b']

/-- `"ab ab"`. -/
def ababLit : List Nat := cl ['a', 'b', ' ', 'a', 'b']

/-- `"bogus"`. -/
def bogusLit : List Nat := cl ['b', 'o', 'g', 'u', 's']

/-- Stand-in Parquet encoders for concrete runs; the claims encoder
records each row's tier so the written bytes exhibit it. -/
def pq0E : List EntityRow → List Nat := fun _ => []

/-- See pq0E. -/
def pq0C : List ClaimRow → List Nat := fun rows => (rows.map (fun r => intDigs r.tier)).flatten

/-- See pq0E. -/
def pq0P : List ProvRow → List Nat := fun _ => []

/-- See pq0E. -/
def pq0S : List SpanRow → List Nat := fun _ => []

/-- A verify stand-in. -/
def vTrue : List (List Nat × List Nat) → Bool := fun _ => true

/-- Empty configuration strings. -/
def cfg0 : CfgStrs := ⟨[], [], [], [], []⟩

/-- All-identity primitives: a concrete compiler run with idCp for every
byte-level primitive. -/
def compile0 (inp : CompileIn) (pre : List (List Nat × List Nat)) :
    BuildOutcome × List (List Nat × List Nat) :=
  compileModel idCp idCp idCp idCp idCp idCp idCp pq0E pq0C pq0P pq0S []
    vTrue cfg0 inp pre

/-- A candidate with tier 5 and otherwise valid fields (evidence "x",
object_type "literal:string"). -/
def cand5 : Cand :=
  ⟨some (JVal.str sLit), some (JVal.str pLit), some (JVal.str oLit),
   some (JVal.str litStringLit), some (JVal.str xLit), none, some (JVal.num 5)⟩

/-- A candidate whose evidence "zz" does not occur in the source "x". -/
def candMiss : Cand :=
  ⟨some (JVal.str sLit), some (JVal.str pLit), some (JVal.str oLit),
   some (JVal.str litStringLit), some (JVal.str zzLit), none, none⟩

/-- A candidate with an invalid object_type "bogus" and the ambiguous
evidence "ab" (against the source "ab ab"). -/
def candBogus : Cand :=
  ⟨some (JVal.str sLit), some (JVal.str pLit), some (JVal.str oLit),
   some (JVal.str bogusLit), some (JVal.str abLit), none, none⟩

/-- A valid candidate with evidence "x", unique in the source "x". -/
def candX : Cand :=
  ⟨some (JVal.str sLit), some (JVal.str pLit), some (JVal.str oLit),
   some (JVal.str litStringLit), some (JVal.str xLit), none, none⟩

/-- Inputs: source "x", one tier-5 candidate. -/
def c3In : CompileIn := ⟨true, some xLit, true, true, [cand5]⟩

/-- Inputs: source "x", one candidate whose evidence is absent. -/
def c5In : CompileIn := ⟨true, some xLit, true, true, [candMiss]⟩

/-- Inputs: source "ab ab", one invalid-object_type candidate with
ambiguous evidence. -/
def c6In : CompileIn := ⟨true, some ababLit, true, true, [candBogus]⟩

/-- Inputs: the source file is missing. -/
def c10In : CompileIn := ⟨false, none, true, true, []⟩

/-- A pre-existing out_dir holding a stale content/source.txt. -/
def staleFs : List (List Nat × List Nat) := [(contentSourcePath, [7])]

/-- The entity dict of the tier-5 run. -/
def c3Dict : List (List Nat × List Nat) := (pass1 idCp idCp idCp [] [cand5] []).getD []

/-- The claim rows of the tier-5 run. -/
def c3Rows : List ClaimRow :=
  match pass2 idCp idCp idCp [] c3Dict [120] [120] [cand5] [] [] [] with
  | Except.ok (cr, _, _) => cr
  | Except.error _ => []

/-- The subject entity id of the concrete runs (identity primitives,
empty namespace). -/
def sidX : List Nat := (recomputeEntityId idCp idCp idCp [] sLit).getD []

/-- The claim id of the candX run. -/
def cidX : List Nat := (recomputeClaimId idCp idCp idCp sidX pLit oLit litStringLit).getD []

/-- The claim row of the candX run. -/
def rowCX : ClaimRow := ⟨cidX, sidX, pLit, oLit, litStringLit, 0⟩

/-- The provenance row of the candX run. -/
def rowPX : ProvRow := ⟨provIdOf idCp [120] 0 1, cidX, [120], 0, 1⟩

/-- The span row of the candX run. -/
def rowSX : SpanRow := ⟨spanIdOf idCp [120] 0 1 xLit, [120], 0, 1, xLit⟩

theorem partsLoop_acc (chunks : List (List Nat)) : ∀ acc,
    chunks.foldl (fun parts chunk =>
      let cleaned := dropCc chunk
      if cleaned.isEmpty then parts else parts ++ [cleaned]) acc =
    acc ++ ((chunks.map dropCc).filter (fun ch => !ch.isEmpty)) := by
  induction chunks with
  | nil => intro acc; simp
  | cons ch rest ih =>
    intro acc
    simp only [List.foldl_cons, List.map_cons, List.filter_cons]
    by_cases h : (dropCc ch).isEmpty
    · simp only [h, if_pos, ih]
      simp
    · simp only [h, if_neg, ih]
      simp [h]

/-- The accumulation loop of `canonicalize` is the filter of the cleaned
chunks, as the spec words it. -/
theorem partsLoop_eq (chunks : List (List Nat)) :
    partsLoop chunks = (chunks.map dropCc).filter (fun ch => !ch.isEmpty) := by
  have h := partsLoop_acc chunks []
  rw [List.nil_append] at h
  exact h

theorem splitStep_inv (c : Nat) (st : List Nat × List (List Nat))
    (h₁ : wsFree st.1 = true) (h₂ : st.2.all chunkOk = true) :
    wsFree (splitStep c st).1 = true ∧ ((splitStep c st).2.all chunkOk = true) := by
  obtain ⟨cur, done⟩ := st
  simp only at h₁ h₂
  by_cases hws : pyWs c = true
  · refine ⟨by simp [splitStep, hws, wsFree], ?_⟩
    by_cases hc : cur.isEmpty = true
    · simpa [splitStep, hws, hc] using h₂
    · have hok : chunkOk cur = true := by
        simp only [chunkOk, Bool.and_eq_true]
        exact ⟨by simp [hc], h₁⟩
      simp only [splitStep, hws, if_true]
      simp [hc, hok, h₂]
  · have hws' : pyWs c = false := by simpa using hws
    constructor
    · simp only [splitStep, hws', Bool.false_eq_true, if_false]
      simpa [wsFree, hws'] using h₁
    · simp [splitStep, hws', h₂]

theorem pySplit_fold_inv (t : List Nat) :
    wsFree (t.foldr splitStep ([], [])).1 = true ∧
    ((t.foldr splitStep ([], [])).2.all chunkOk = true) := by
  induction t with
  | nil => simp [wsFree]
  | cons c rest ih => exact splitStep_inv c _ ih.1 ih.2

/-- Every chunk `str.split()` produces is non-empty and whitespace-free. -/
theorem pySplit_ok (t : List Nat) : (pySplit t).all chunkOk = true := by
  have h := pySplit_fold_inv t
  rcases hst : t.foldr splitStep ([], []) with ⟨cur, done⟩
  rw [hst] at h
  simp only at h
  simp only [pySplit, hst]
  by_cases hc : cur.isEmpty = true
  · simpa [hc] using h.2
  · have hok : chunkOk cur = true := by
      simp only [chunkOk, Bool.and_eq_true]
      exact ⟨by simp [hc], h.1⟩
    simp [hc, hok, h.2]

/-- Cleaning chunks preserves whitespace-freedom, and the loop keeps only
non-empty results. -/
theorem partsLoop_chunks_ok (chunks : List (List Nat))
    (h : chunks.all chunkOk = true) : (partsLoop chunks).all chunkOk = true := by
  rw [partsLoop_eq]
  rw [List.all_eq_true] at h ⊢
  intro ch hch
  rw [List.mem_filter] at hch
  obtain ⟨hmem, hne⟩ := hch
  rw [List.mem_map] at hmem
  obtain ⟨orig, horig, rfl⟩ := hmem
  have := h orig horig
  simp only [chunkOk, Bool.and_eq_true] at this ⊢
  refine ⟨hne, ?_⟩
  simp only [wsFree, List.all_eq_true, dropCc] at this ⊢
  intro c hc
  exact this.2 c (List.mem_of_mem_filter hc)

theorem noAdjWs_cons (a : Nat) (l : List Nat) :
    noAdjWs (a :: l) = ((match l.head? with
      | none => true
      | some b => !(pyWs a && pyWs b)) && noAdjWs l) := by
  cases l with
  | nil => simp [noAdjWs]
  | cons b t => simp [noAdjWs]

theorem noAdjWs_append (p t : List Nat) (hp : wsFree p = true)
    (ht : noAdjWs t = true) : noAdjWs (p ++ t) = true := by
  induction p with
  | nil => simpa using ht
  | cons a p' ih =>
    have ha : pyWs a = false := by
      simp only [wsFree, List.all_cons, Bool.and_eq_true] at hp
      simpa using hp.1
    have hp' : wsFree p' = true := by
      simp only [wsFree, List.all_cons, Bool.and_eq_true] at hp
      exact hp.2
    rw [List.cons_append, noAdjWs_cons]
    simp only [Bool.and_eq_true]
    refine ⟨?_, ih hp'⟩
    cases hh : (p' ++ t).head? with
    | none => simp
    | some b => simp [ha]

theorem joinSpace_head (p : List Nat) (q : List Nat) (rest : List (List Nat)) :
    (joinSpace (p :: q :: rest)) = p ++ 32 :: joinSpace (q :: rest) := rfl

theorem joinSpace_head?_mem (chunks : List (List Nat))
    (h : chunks.all chunkOk = true) :
    ∀ c, (joinSpace chunks).head? = some c → pyWs c = false := by
  induction chunks with
  | nil => intro c hc; simp [joinSpace] at hc
  | cons p rest ih =>
    intro c hc
    have hp : chunkOk p = true := by
      rw [List.all_cons, Bool.and_eq_true] at h
      exact h.1
    simp only [chunkOk, Bool.and_eq_true] at hp
    obtain ⟨hne, hws⟩ := hp
    cases rest with
    | nil =>
      simp only [joinSpace] at hc
      cases p with
      | nil => simp at hne
      | cons a _ =>
        simp only [List.head?] at hc
        cases hc
        simp only [wsFree, List.all_cons, Bool.and_eq_true] at hws
        simpa using hws.1
    | cons q rest' =>
      rw [joinSpace_head] at hc
      cases p with
      | nil => simp at hne
      | cons a _ =>
        simp only [List.cons_append, List.head?] at hc
        cases hc
        simp only [wsFree, List.all_cons, Bool.and_eq_true] at hws
        simpa using hws.1

theorem joinSpace_ne_nil (q : List Nat) (rest : List (List Nat))
    (h : (q :: rest).all chunkOk = true) : joinSpace (q :: rest) ≠ [] := by
  rw [List.all_cons, Bool.and_eq_true] at h
  have hq : q ≠ [] := by
    have hq' := h.1
    simp only [chunkOk, Bool.and_eq_true] at hq'
    intro hcon
    rw [hcon] at hq'
    simp at hq'
  cases rest with
  | nil => simpa [joinSpace] using hq
  | cons r rest' =>
    rw [joinSpace_head]
    intro hcon
    rcases List.append_eq_nil.mp hcon with ⟨_, h2⟩
    simp at h2

theorem joinSpace_getLast?_mem (chunks : List (List Nat))
    (h : chunks.all chunkOk = true) :
    ∀ c, (joinSpace chunks).getLast? = some c → pyWs c = false := by
  induction chunks with
  | nil => intro c hc; simp [joinSpace] at hc
  | cons p rest ih =>
    intro c hc
    rw [List.all_cons, Bool.and_eq_true] at h
    obtain ⟨hp, hrest⟩ := h
    simp only [chunkOk, Bool.and_eq_true] at hp
    obtain ⟨hne, hws⟩ := hp
    cases rest with
    | nil =>
      simp only [joinSpace] at hc
      obtain ⟨hne2, heq⟩ := List.mem_getLast?_eq_getLast (l := p) (x := c) hc
      have hmem : c ∈ p := heq ▸ List.getLast_mem hne2
      simp only [wsFree, List.all_eq_true] at hws
      simpa using hws c hmem
    | cons q rest' =>
      rw [joinSpace_head, List.getLast?_append_cons] at hc
      have hne' : joinSpace (q :: rest') ≠ [] := joinSpace_ne_nil q rest' hrest
      rw [show (32 : Nat) :: joinSpace (q :: rest') =
        [32] ++ joinSpace (q :: rest') from rfl,
        List.getLast?_append_of_ne_nil _ hne'] at hc
      exact ih hrest c hc

theorem joinSpace_noAdj (chunks : List (List Nat))
    (h : chunks.all chunkOk = true) : noAdjWs (joinSpace chunks) = true := by
  induction chunks with
  | nil => simp [joinSpace, noAdjWs]
  | cons p rest ih =>
    rw [List.all_cons, Bool.and_eq_true] at h
    obtain ⟨hp, hrest⟩ := h
    simp only [chunkOk, Bool.and_eq_true] at hp
    obtain ⟨hne, hws⟩ := hp
    cases rest with
    | nil =>
      simp only [joinSpace]
      have := noAdjWs_append p [] hws (by simp [noAdjWs])
      simpa using this
    | cons q rest' =>
      rw [joinSpace_head]
      apply noAdjWs_append p _ hws
      rw [noAdjWs_cons]
      simp only [Bool.and_eq_true]
      refine ⟨?_, ih hrest⟩
      cases hh : (joinSpace (q :: rest')).head? with
      | none => simp
      | some b =>
        have := joinSpace_head?_mem (q :: rest') hrest b hh
        simp [this]

/-- Joining well-formed chunks with single spaces leaves no leading,
trailing or internal whitespace run. -/
theorem joinSpace_noWsRuns (chunks : List (List Nat))
    (h : chunks.all chunkOk = true) : noWsRuns (joinSpace chunks) = true := by
  simp only [noWsRuns, Bool.and_eq_true]
  refine ⟨⟨?_, ?_⟩, joinSpace_noAdj chunks h⟩
  · cases hh : (joinSpace chunks).head? with
    | none =>
      have : joinSpace chunks = [] := List.head?_eq_none_iff.mp hh
      simp [this]
    | some c =>
      have hc := joinSpace_head?_mem chunks h c hh
      cases hj : joinSpace chunks with
      | nil => simp
      | cons a t =>
        rw [hj] at hh
        simp only [List.head?] at hh
        cases hh
        simpa using hc
  · cases hh : (joinSpace chunks).getLast? with
    | none => simp
    | some c =>
      have hc := joinSpace_getLast?_mem chunks h c hh
      simp [hc]

/-- Claim C8: `canonicalize` fails exactly on NUL-containing input; on
NUL-free input it returns the `nfc`-normalized, case-folded text split on
Unicode whitespace, Cc characters dropped from each chunk, empty chunks
discarded and the rest rejoined by single ASCII spaces; the result has no
leading, trailing or internal whitespace runs; and on
`"  Hello   World  "` (NFC-normal, case folding to `"  hello   world  "`)
it returns `"hello world"`. -/
theorem canonicalize_claim (nfc cf : List Nat → List Nat)
    (hn : nfc helloIn = helloIn) (hc : cf helloIn = helloFold) :
    (∀ s, canonicalize nfc cf s = none ↔ s.contains 0 = true) ∧
    (∀ s, s.contains 0 = false →
      canonicalize nfc cf s =
        some (joinSpace (((pySplit (cf (nfc s))).map dropCc).filter
          (fun ch => !ch.isEmpty)))) ∧
    (∀ s r, canonicalize nfc cf s = some r → noWsRuns r = true) ∧
    canonicalize nfc cf helloIn = some helloOut := by
  refine ⟨?_, ?_, ?_, ?_⟩
  · intro s
    by_cases h0 : s.contains 0 = true
    · simp [canonicalize, h0]
    · simp [canonicalize, h0]
  · intro s h
    unfold canonicalize
    rw [if_neg (by simpa using h), partsLoop_eq]
  · intro s r h
    unfold canonicalize at h
    by_cases h0 : s.contains 0 = true
    · rw [if_pos h0] at h
      simp at h
    · rw [if_neg h0] at h
      cases h
      exact joinSpace_noWsRuns _ (partsLoop_chunks_ok _ (pySplit_ok _))
  · unfold canonicalize
    rw [hn, hc]
    decide

/-- Witness for C8 at `nfc := idCp`, `cf := asciiLow`. -/
theorem canonicalize_claim_witness :
    (idCp helloIn = helloIn ∧ asciiLow helloIn = helloFold) ∧
    ((∀ s, canonicalize idCp asciiLow s = none ↔ s.contains 0 = true) ∧
     (∀ s, s.contains 0 = false →
       canonicalize idCp asciiLow s =
         some (joinSpace (((pySplit (asciiLow (idCp s))).map dropCc).filter
           (fun ch => !ch.isEmpty)))) ∧
     (∀ s r, canonicalize idCp asciiLow s = some r → noWsRuns r = true) ∧
     canonicalize idCp asciiLow helloIn = some helloOut) :=
  ⟨⟨rfl, by decide⟩, canonicalize_claim idCp asciiLow rfl (by decide)⟩

/- Canonical JSON: digit printing and parsing. -/

theorem natDigsAux_digits : ∀ fuel n, n < fuel → ∀ c ∈ natDigsAux fuel n, isDig c = true := by
  intro fuel
  induction fuel with
  | zero => intro n h; omega
  | succ fuel ih =>
    intro n _ c hc
    by_cases h10 : n < 10
    · simp only [natDigsAux, if_pos h10, List.mem_singleton] at hc
      subst hc
      simp only [isDig, Bool.and_eq_true, decide_eq_true_eq]
      omega
    · simp only [natDigsAux, if_neg h10, List.mem_append, List.mem_singleton] at hc
      rcases hc with hc | hc
      · exact ih (n / 10) (by omega) c hc
      · subst hc
        have := Nat.mod_lt n (show 0 < 10 by norm_num)
        simp only [isDig, Bool.and_eq_true, decide_eq_true_eq]
        omega

theorem natDigsAux_ne_nil : ∀ fuel n, n < fuel → natDigsAux fuel n ≠ [] := by
  intro fuel
  induction fuel with
  | zero => intro n h; omega
  | succ fuel _ =>
    intro n _
    by_cases h10 : n < 10
    · simp [natDigsAux, if_pos h10]
    · simp [natDigsAux, if_neg h10]

theorem natDigsAux_val : ∀ fuel n, n < fuel → ∀ acc,
    (natDigsAux fuel n).foldl (fun a c => a * 10 + (c - 48)) acc =
      acc * 10 ^ (natDigsAux fuel n).length + n := by
  intro fuel
  induction fuel with
  | zero => intro n h; omega
  | succ fuel ih =>
    intro n hn acc
    by_cases h10 : n < 10
    · simp only [natDigsAux, if_pos h10, List.foldl_cons, List.foldl_nil,
        List.length_singleton, pow_one]
      omega
    · have hrec : n / 10 < fuel := by omega
      simp only [natDigsAux, if_neg h10, List.foldl_append, List.foldl_cons,
        List.foldl_nil, List.length_append, List.length_singleton]
      rw [ih (n / 10) hrec acc]
      have hmod := Nat.mod_lt n (show 0 < 10 by norm_num)
      have hdm := Nat.div_add_mod n 10
      ring_nf
      omega

theorem natDigs_digits (n : Nat) : ∀ c ∈ natDigs n, isDig c = true :=
  natDigsAux_digits (n + 1) n (by omega)

theorem natDigs_ne_nil (n : Nat) : natDigs n ≠ [] :=
  natDigsAux_ne_nil (n + 1) n (by omega)

theorem natDigs_val (n : Nat) :
    (natDigs n).foldl (fun a c => a * 10 + (c - 48)) 0 = n := by
  have := natDigsAux_val (n + 1) n (by omega) 0
  simpa [natDigs] using this

theorem digsAcc_stop (acc : Nat) (rest : List Nat)
    (h : ∀ c t, rest = c :: t → isDig c = false) : digsAcc acc rest = (acc, rest) := by
  cases rest with
  | nil => rfl
  | cons c t => simp [digsAcc, h c t rfl]

theorem digsAcc_run : ∀ (ds : List Nat), (∀ c ∈ ds, isDig c = true) → ∀ acc rest,
    digsAcc acc (ds ++ rest) =
      digsAcc (ds.foldl (fun a c => a * 10 + (c - 48)) acc) rest := by
  intro ds
  induction ds with
  | nil => intro _ acc rest; rfl
  | cons d ds ih =>
    intro h acc rest
    have hd : isDig d = true := h d (by simp)
    simp only [List.cons_append, digsAcc, hd, if_true, List.foldl_cons]
    exact ih (fun c hc => h c (by simp [hc])) _ rest

/-- Number completeness: the canonical integer form parses back. -/
theorem parseIntTok_enc (n : Int) (rest : List Nat)
    (hrest : ∀ c t, rest = c :: t → isDig c = false) :
    parseIntTok (intDigs n ++ rest) = some (n, rest) := by
  cases n with
  | ofNat m =>
    rcases hnd : natDigs m with _ | ⟨d, ds⟩
    · exact absurd hnd (natDigs_ne_nil m)
    · have hdig : isDig d = true := natDigs_digits m d (by simp [hnd])
      have hd45 : ¬(d = 45) := by
        simp only [isDig, Bool.and_eq_true, decide_eq_true_eq] at hdig
        omega
      have hds : ∀ c ∈ ds, isDig c = true := by
        intro c hc
        exact natDigs_digits m c (by simp [hnd, hc])
      have hval : ds.foldl (fun a c => a * 10 + (c - 48)) (d - 48) = m := by
        have := natDigs_val m
        rw [hnd, List.foldl_cons] at this
        simpa using this
      show parseIntTok (intDigs (Int.ofNat m) ++ rest) = _
      simp only [intDigs, hnd, List.cons_append, parseIntTok, if_neg hd45, hdig,
        if_true]
      rw [digsAcc_run ds hds, digsAcc_stop _ _ hrest, hval]
      rfl
  | negSucc m =>
    rcases hnd : natDigs (m + 1) with _ | ⟨d, ds⟩
    · exact absurd hnd (natDigs_ne_nil (m + 1))
    · have hdig : isDig d = true := natDigs_digits (m + 1) d (by simp [hnd])
      have hds : ∀ c ∈ ds, isDig c = true := by
        intro c hc
        exact natDigs_digits (m + 1) c (by simp [hnd, hc])
      have hval : ds.foldl (fun a c => a * 10 + (c - 48)) (d - 48) = m + 1 := by
        have := natDigs_val (m + 1)
        rw [hnd, List.foldl_cons] at this
        simpa using this
      show parseIntTok (intDigs (Int.negSucc m) ++ rest) = _
      simp only [intDigs, hnd, List.cons_append, parseIntTok, if_pos rfl,
        parseIntNeg, hdig, if_true]
      rw [digsAcc_run ds hds, digsAcc_stop _ _ hrest, hval]
      rfl

/- Canonical JSON: string escaping round trip. -/

theorem hexVal_hexDig (n : Nat) (h : n < 16) : hexVal (hexDig n) = some n := by
  by_cases h10 : n < 10
  · have : hexDig n = 48 + n := by simp [hexDig, h10]
    rw [this]
    simp only [hexVal]
    rw [if_pos (by omega)]
    congr 1
    omega
  · have : hexDig n = 87 + n := by simp [hexDig, h10]
    rw [this]
    simp only [hexVal]
    rw [if_neg (by omega), if_pos (by omega)]
    congr 1
    omega

theorem parseHex4_digits (a b x y : Nat) (tail : List Nat) (va vb vx vy : Nat)
    (ha : hexVal a = some va) (hb : hexVal b = some vb)
    (hx : hexVal x = some vx) (hy : hexVal y = some vy) :
    parseHex4 (a :: b :: x :: y :: tail) =
      match parseStrBody tail with
      | some (s, r) => some ((((va * 16 + vb) * 16 + vx) * 16 + vy) :: s, r)
      | none => none := by
  simp only [parseHex4, ha, hb, hx, hy]

theorem parseStrBody_esc : ∀ (s rest : List Nat),
    parseStrBody (escStr s ++ 34 :: rest) = some (s, rest)
  | [], rest => by simp [escStr, parseStrBody]
  | c :: s', rest => by
    have ih := parseStrBody_esc s' rest
    have hesc : escStr (c :: s') = escChar c ++ escStr s' := by
      simp [escStr]
    rw [hesc, List.append_assoc]
    by_cases h34 : c = 34
    · subst h34
      simp [escChar, parseStrBody, parseEscSeq, escDecode, ih]
    · by_cases h92 : c = 92
      · subst h92
        simp [escChar, parseStrBody, parseEscSeq, escDecode, ih]
      · by_cases h32 : c < 32
        · by_cases h8 : c = 8
          · subst h8; simp [escChar, parseStrBody, parseEscSeq, escDecode, ih]
          · by_cases h9 : c = 9
            · subst h9; simp [escChar, parseStrBody, parseEscSeq, escDecode, ih]
            · by_cases h10 : c = 10
              · subst h10; simp [escChar, parseStrBody, parseEscSeq, escDecode, ih]
              · by_cases h12 : c = 12
                · subst h12; simp [escChar, parseStrBody, parseEscSeq, escDecode, ih]
                · by_cases h13 : c = 13
                  · subst h13; simp [escChar, parseStrBody, parseEscSeq, escDecode, ih]
                  · have hdiv : c / 16 < 16 := by omega
                    have hmod : c % 16 < 16 := by omega
                    have hval : (((0 * 16 + 0) * 16 + c / 16) * 16 + c % 16) = c := by
                      omega
                    simp only [escChar, if_neg h34, if_neg h92, if_pos h32,
                      if_neg h8, if_neg h9, if_neg h10, if_neg h12, if_neg h13,
                      List.cons_append, List.nil_append]
                    have hstep : ∀ t : List Nat,
                        parseStrBody (92 :: 117 :: t) = parseHex4 t := fun _ => rfl
                    rw [hstep, parseHex4_digits 48 48 (hexDig (c / 16))
                      (hexDig (c % 16)) _ 0 0 (c / 16) (c % 16) rfl rfl
                      (hexVal_hexDig _ hdiv) (hexVal_hexDig _ hmod), ih]
                    simp
                    omega
        · simp only [escChar, if_neg h34, if_neg h92, if_neg h32,
            List.cons_append, List.nil_append]
          simp only [parseStrBody, if_neg h34, if_neg h92, if_neg h32, ih]

/- Canonical JSON: token heads. -/

theorem skipWs_cons (c : Nat) (t : List Nat) (h : jWs c = false) :
    skipWs (c :: t) = c :: t := by
  simp [skipWs, h]

theorem vstart_facts (c : Nat) (h : vstart c = true) :
    jWs c = false ∧ c ≠ 44 ∧ c ≠ 93 ∧ c ≠ 125 ∧ c ≠ 58 := by
  simp only [vstart, isDig, Bool.or_eq_true, beq_iff_eq, Bool.and_eq_true,
    decide_eq_true_eq] at h
  refine ⟨?_, by omega, by omega, by omega, by omega⟩
  simp only [jWs, Bool.or_eq_false_iff, beq_eq_false_iff_ne, ne_eq]
  omega

theorem encJ_head : ∀ m : Json, ∃ c t, encJ m = c :: t ∧ vstart c = true := by
  intro m
  cases m with
  | null => exact ⟨110, _, rfl, by decide⟩
  | bool b => cases b with
    | true => exact ⟨116, _, rfl, by decide⟩
    | false => exact ⟨102, _, rfl, by decide⟩
  | str s => exact ⟨34, _, rfl, by decide⟩
  | arr xs => exact ⟨91, _, rfl, by decide⟩
  | obj kvs => exact ⟨123, _, rfl, by decide⟩
  | num n =>
    cases n with
    | ofNat m =>
      rcases hnd : natDigs m with _ | ⟨d, ds⟩
      · exact absurd hnd (natDigs_ne_nil m)
      · refine ⟨d, ds, by simp [encJ, intDigs, hnd], ?_⟩
        have := natDigs_digits m d (by simp [hnd])
        simp [vstart, this]
    | negSucc m =>
      exact ⟨45, natDigs (m + 1), by simp [encJ, intDigs], by decide⟩

/- Canonical JSON: parser completeness on encoder output. -/

theorem pvFuel_pos (m : Json) : 1 ≤ pvFuel m := by
  cases m <;> simp [pvFuel]

theorem peFuel_pos (l : List Json) : 1 ≤ peFuel l := by
  cases l <;> simp [peFuel]

theorem pmFuel_pos (l : List (List Nat × Json)) : 1 ≤ pmFuel l := by
  cases l with
  | nil => simp [pmFuel]
  | cons p rest => obtain ⟨k, v⟩ := p; simp [pmFuel]

theorem delim_cons (c : Nat) (h : isDig c = false) (t : List Nat) :
    ∀ c' t', c :: t = c' :: t' → isDig c' = false := by
  intro c' t' he
  cases he
  exact h

theorem encElems_cons_eq (x : Json) (xs : List Json) :
    ∃ tl, encElems (x :: xs) = encJ x ++ tl := by
  cases xs with
  | nil => exact ⟨[], by simp [encElems]⟩
  | cons y ys => exact ⟨44 :: encElems (y :: ys), by simp [encElems]⟩

theorem skipWs_encJ (x : Json) (tail : List Nat) :
    skipWs (encJ x ++ tail) = encJ x ++ tail := by
  obtain ⟨c, t, hx, hv⟩ := encJ_head x
  rw [hx, List.cons_append, skipWs_cons _ _ (vstart_facts c hv).1]

mutual

theorem pvC : ∀ (m : Json) (rest : List Nat) (fuel : Nat),
    pvFuel m ≤ fuel + 1 →
    (∀ c t, rest = c :: t → isDig c = false) →
    parseVal (fuel + 1) (encJ m ++ rest) = some (m, rest)
  | Json.null, rest, fuel => by
    intro _ _
    rfl
  | Json.bool true, rest, fuel => by
    intro _ _
    rfl
  | Json.bool false, rest, fuel => by
    intro _ _
    rfl
  | Json.num n, rest, fuel => by
    intro _ hrest
    have hstep : ∀ d t, jWs d = false → ¬d = 110 → ¬d = 116 → ¬d = 102 →
        ¬d = 34 → ¬d = 91 → ¬d = 123 →
        parseVal (fuel + 1) (d :: t) =
          (match parseIntTok (d :: t) with
           | some (nn, r) => some (Json.num nn, r)
           | none => none) := by
      intro d t hws h1 h2 h3 h4 h5 h6
      simp only [parseVal]
      rw [skipWs_cons _ _ hws]
      simp only [if_neg h1, if_neg h2, if_neg h3, if_neg h4, if_neg h5, if_neg h6]
    cases n with
    | ofNat m =>
      rcases hnd : natDigs m with _ | ⟨d, ds⟩
      · exact absurd hnd (natDigs_ne_nil m)
      · have hdig : isDig d = true := natDigs_digits m d (by simp [hnd])
        have hd : 48 ≤ d ∧ d ≤ 57 := by
          simpa [isDig, Bool.and_eq_true, decide_eq_true_eq] using hdig
        have hI : encJ (Json.num (Int.ofNat m)) = d :: ds := by
          simp [encJ, intDigs, hnd]
        rw [hI, List.cons_append]
        rw [hstep d (ds ++ rest)
          (by simp only [jWs, Bool.or_eq_false_iff, beq_eq_false_iff_ne, ne_eq]; omega)
          (by omega) (by omega) (by omega) (by omega) (by omega) (by omega)]
        rw [← List.cons_append, show d :: ds = encJ (Json.num (Int.ofNat m)) from hI.symm]
        show (match parseIntTok (intDigs (Int.ofNat m) ++ rest) with
          | some (nn, r) => some (Json.num nn, r)
          | none => none) = _
        rw [parseIntTok_enc (Int.ofNat m) rest hrest]
    | negSucc m =>
      have hI : encJ (Json.num (Int.negSucc m)) = 45 :: natDigs (m + 1) := rfl
      rw [hI, List.cons_append]
      rw [hstep 45 (natDigs (m + 1) ++ rest) (by decide) (by omega) (by omega)
        (by omega) (by omega) (by omega) (by omega)]
      rw [← List.cons_append, show (45 : Nat) :: natDigs (m + 1) =
        encJ (Json.num (Int.negSucc m)) from hI.symm]
      show (match parseIntTok (intDigs (Int.negSucc m) ++ rest) with
        | some (nn, r) => some (Json.num nn, r)
        | none => none) = _
      rw [parseIntTok_enc (Int.negSucc m) rest hrest]
  | Json.str s, rest, fuel => by
    intro _ _
    have hshape : encJ (Json.str s) ++ rest = 34 :: (escStr s ++ 34 :: rest) := by
      show (34 :: escStr s ++ [34]) ++ rest = _
      simp
    rw [hshape]
    have hstep : ∀ t : List Nat, parseVal (fuel + 1) (34 :: t) =
        (match parseStrBody t with
         | some (str, r) => some (Json.str str, r)
         | none => none) := fun _ => rfl
    rw [hstep, parseStrBody_esc]
  | Json.arr [], rest, fuel => by
    intro _ _
    rfl
  | Json.arr (x :: xs), rest, fuel => by
    intro hfuel _
    have hpe : peFuel (x :: xs) ≤ fuel := by
      simp only [pvFuel] at hfuel
      omega
    rcases fuel with _ | fuel'
    · have := peFuel_pos (x :: xs)
      omega
    have hshape : encJ (Json.arr (x :: xs)) ++ rest =
        91 :: (encElems (x :: xs) ++ 93 :: rest) := by
      show (91 :: encElems (x :: xs) ++ [93]) ++ rest = _
      simp
    rw [hshape]
    have hstep : ∀ t : List Nat, parseVal (fuel' + 1 + 1) (91 :: t) =
        (match skipWs t with
         | [] => none
         | d :: r =>
           if d = 93 then some (Json.arr [], r)
           else
             match parseElems (fuel' + 1) (d :: r) with
             | some (xs, r') => some (Json.arr xs, r')
             | none => none) := fun _ => rfl
    rw [hstep]
    obtain ⟨c₀, t₀, hx0, hv0⟩ := encJ_head x
    obtain ⟨tl, htl⟩ := encElems_cons_eq x xs
    have hE : encElems (x :: xs) ++ 93 :: rest = c₀ :: (t₀ ++ (tl ++ 93 :: rest)) := by
      rw [htl, hx0]
      simp
    have hv0' := vstart_facts c₀ hv0
    rw [hE, skipWs_cons _ _ hv0'.1]
    simp only [if_neg hv0'.2.2.1]
    rw [← hE, peC x xs rest fuel' (by omega)]
  | Json.obj [], rest, fuel => by
    intro _ _
    rfl
  | Json.obj ((k, v) :: kvs), rest, fuel => by
    intro hfuel _
    have hpm : pmFuel ((k, v) :: kvs) ≤ fuel := by
      simp only [pvFuel] at hfuel
      omega
    rcases fuel with _ | fuel'
    · have := pmFuel_pos ((k, v) :: kvs)
      omega
    have hshape : encJ (Json.obj ((k, v) :: kvs)) ++ rest =
        123 :: (encMembers ((k, v) :: kvs) ++ 125 :: rest) := by
      show (123 :: encMembers ((k, v) :: kvs) ++ [125]) ++ rest = _
      simp
    rw [hshape]
    have hstep : ∀ t : List Nat, parseVal (fuel' + 1 + 1) (123 :: t) =
        (match skipWs t with
         | [] => none
         | d :: r =>
           if d = 125 then some (Json.obj [], r)
           else
             match parseMembers (fuel' + 1) (d :: r) with
             | some (kvs, r') => some (Json.obj kvs, r')
             | none => none) := fun _ => rfl
    rw [hstep]
    have hM : ∃ t, encMembers ((k, v) :: kvs) ++ 125 :: rest = 34 :: t := by
      cases kvs with
      | nil =>
        exact ⟨escStr k ++ 34 :: 58 :: encJ v ++ 125 :: rest, by simp [encMembers]⟩
      | cons q kvs' =>
        obtain ⟨k₂, v₂⟩ := q
        exact ⟨escStr k ++ 34 :: 58 :: encJ v ++
          44 :: encMembers ((k₂, v₂) :: kvs') ++ 125 :: rest, by simp [encMembers]⟩
    obtain ⟨t, ht⟩ := hM
    rw [ht, skipWs_cons _ _ (by decide)]
    simp only [if_neg (by decide : ¬(34 = 125))]
    rw [← ht, pmC k v kvs rest fuel' (by omega)]
  termination_by m _ _ => sizeOf m

theorem peC : ∀ (x : Json) (xs : List Json) (rest : List Nat) (fuel : Nat),
    peFuel (x :: xs) ≤ fuel + 1 →
    parseElems (fuel + 1) (encElems (x :: xs) ++ 93 :: rest) = some (x :: xs, rest)
  | x, [], rest, fuel => by
    intro hfuel
    have hpv : pvFuel x ≤ fuel := by
      simp only [peFuel] at hfuel
      have := peFuel_pos ([] : List Json)
      omega
    rcases fuel with _ | fuel'
    · have := pvFuel_pos x
      omega
    have hshape : encElems [x] ++ 93 :: rest = encJ x ++ 93 :: rest := by
      simp [encElems]
    rw [hshape]
    have hpvx := pvC x (93 :: rest) fuel' (by omega) (delim_cons 93 (by decide) rest)
    simp only [parseElems, hpvx, skipWs_cons 93 rest (by decide)]
    simp
  | x, y :: xs, rest, fuel => by
    intro hfuel
    have hpv : pvFuel x ≤ fuel := by
      simp only [peFuel] at hfuel
      omega
    have hpe : peFuel (y :: xs) ≤ fuel := by
      simp only [peFuel] at hfuel ⊢
      omega
    rcases fuel with _ | fuel'
    · have := pvFuel_pos x
      omega
    have hshape : encElems (x :: y :: xs) ++ 93 :: rest =
        encJ x ++ (44 :: (encElems (y :: xs) ++ 93 :: rest)) := by
      show (encJ x ++ 44 :: encElems (y :: xs)) ++ 93 :: rest = _
      simp
    rw [hshape]
    have hpvx := pvC x (44 :: (encElems (y :: xs) ++ 93 :: rest)) fuel' (by omega)
      (delim_cons 44 (by decide) _)
    have hrec := peC y xs rest fuel' (by omega)
    simp only [parseElems] at hrec ⊢
    simp only [hpvx, skipWs_cons 44 (encElems (y :: xs) ++ 93 :: rest) (by decide),
      hrec]
    simp
  termination_by x xs _ _ => sizeOf x + sizeOf xs

theorem pmC : ∀ (k : List Nat) (v : Json) (kvs : List (List Nat × Json))
    (rest : List Nat) (fuel : Nat),
    pmFuel ((k, v) :: kvs) ≤ fuel + 1 →
    parseMembers (fuel + 1) (encMembers ((k, v) :: kvs) ++ 125 :: rest) =
      some ((k, v) :: kvs, rest)
  | k, v, [], rest, fuel => by
    intro hfuel
    have hpv : pvFuel v ≤ fuel := by
      simp only [pmFuel] at hfuel
      omega
    rcases fuel with _ | fuel'
    · have := pvFuel_pos v
      omega
    have hshape : encMembers [(k, v)] ++ 125 :: rest =
        34 :: (escStr k ++ 34 :: (58 :: (encJ v ++ 125 :: rest))) := by
      show (34 :: escStr k ++ 34 :: 58 :: encJ v) ++ 125 :: rest = _
      simp
    rw [hshape]
    have hpvv := pvC v (125 :: rest) fuel' (by omega) (delim_cons 125 (by decide) rest)
    simp only [parseMembers,
      skipWs_cons 34 (escStr k ++ 34 :: (58 :: (encJ v ++ 125 :: rest))) (by decide),
      parseStrBody_esc k (58 :: (encJ v ++ 125 :: rest)),
      skipWs_cons 58 (encJ v ++ 125 :: rest) (by decide), hpvv,
      skipWs_cons 125 rest (by decide)]
    simp
  | k, v, (k₂, v₂) :: kvs', rest, fuel => by
    intro hfuel
    have hpv : pvFuel v ≤ fuel := by
      simp only [pmFuel] at hfuel
      omega
    have hpm : pmFuel ((k₂, v₂) :: kvs') ≤ fuel := by
      simp only [pmFuel] at hfuel ⊢
      omega
    rcases fuel with _ | fuel'
    · have := pvFuel_pos v
      omega
    have hshape : encMembers ((k, v) :: (k₂, v₂) :: kvs') ++ 125 :: rest =
        34 :: (escStr k ++ 34 :: (58 :: (encJ v ++
          44 :: (encMembers ((k₂, v₂) :: kvs') ++ 125 :: rest)))) := by
      show ((34 :: escStr k ++ 34 :: 58 :: encJ v) ++
        44 :: encMembers ((k₂, v₂) :: kvs')) ++ 125 :: rest = _
      simp
    rw [hshape]
    have hpvv := pvC v (44 :: (encMembers ((k₂, v₂) :: kvs') ++ 125 :: rest)) fuel'
      (by omega) (delim_cons 44 (by decide) _)
    have hrec := pmC k₂ v₂ kvs' rest fuel' (by omega)
    simp only [parseMembers] at hrec ⊢
    simp only [
      skipWs_cons 34 (escStr k ++ 34 :: (58 :: (encJ v ++
        44 :: (encMembers ((k₂, v₂) :: kvs') ++ 125 :: rest)))) (by decide),
      parseStrBody_esc k (58 :: (encJ v ++
        44 :: (encMembers ((k₂, v₂) :: kvs') ++ 125 :: rest))),
      skipWs_cons 58 (encJ v ++
        44 :: (encMembers ((k₂, v₂) :: kvs') ++ 125 :: rest)) (by decide), hpvv,
      skipWs_cons 44 (encMembers ((k₂, v₂) :: kvs') ++ 125 :: rest) (by decide),
      hrec]
    simp
  termination_by _ v kvs _ _ => sizeOf v + sizeOf kvs

end

/- Canonical JSON: enough fuel is supplied by `decodeJson`. -/

mutual

theorem pvFuel_le : ∀ m : Json, pvFuel m ≤ (encJ m).length + 2
  | Json.null => by simp [pvFuel]
  | Json.bool b => by cases b <;> simp [pvFuel]
  | Json.num n => by simp [pvFuel]
  | Json.str s => by simp [pvFuel]
  | Json.arr xs => by
    have h := peFuel_le xs
    simp only [pvFuel, encJ, List.length_cons, List.length_append,
      List.length_singleton]
    omega
  | Json.obj kvs => by
    have h := pmFuel_le kvs
    simp only [pvFuel, encJ, List.length_cons, List.length_append,
      List.length_singleton]
    omega

theorem peFuel_le : ∀ xs : List Json, peFuel xs ≤ (encElems xs).length + 3
  | [] => by simp [peFuel]
  | [x] => by
    have h := pvFuel_le x
    simp only [peFuel, encElems]
    have : peFuel ([] : List Json) = 1 := rfl
    omega
  | x :: y :: ys => by
    have h1 := pvFuel_le x
    have h2 := peFuel_le (y :: ys)
    have hne : encElems (y :: ys) ≠ [] := by
      obtain ⟨tl, htl⟩ := encElems_cons_eq y ys
      obtain ⟨c, t, hx, _⟩ := encJ_head y
      simp [htl, hx]
    have hlen : 1 ≤ (encElems (y :: ys)).length := by
      cases hee : encElems (y :: ys) with
      | nil => exact absurd hee hne
      | cons a l => simp
    simp only [peFuel] at h2
    simp only [peFuel, encElems, List.length_append, List.length_cons]
    omega

theorem pmFuel_le : ∀ kvs : List (List Nat × Json), pmFuel kvs ≤ (encMembers kvs).length + 3
  | [] => by simp [pmFuel]
  | [(k, v)] => by
    have h := pvFuel_le v
    simp only [pmFuel, encMembers, List.length_cons, List.length_append]
    have : pmFuel ([] : List (List Nat × Json)) = 1 := rfl
    omega
  | (k, v) :: (k₂, v₂) :: kvs' => by
    have h1 := pvFuel_le v
    have h2 := pmFuel_le ((k₂, v₂) :: kvs')
    simp only [pmFuel] at h2
    simp only [pmFuel, encMembers, List.length_append, List.length_cons]
    omega

end

/-- The canonical encoding of any JSON value decodes back to it. -/
theorem decodeJson_encJ (m : Json) : decodeJson (encJ m) = some m := by
  unfold decodeJson
  have hb := pvFuel_le m
  have h := pvC m [] ((encJ m).length + 1) (by omega)
    (by intro c t hct; exact absurd hct (by simp))
  rw [List.append_nil] at h
  have : (encJ m).length + 2 = (encJ m).length + 1 + 1 := rfl
  rw [this, h]
  rfl

/- Canonical JSON: the key order is a strict total order, and sorting
produces strictly ascending keys when keys are distinct. -/

theorem lexLt_irrefl : ∀ a : List Nat, lexLt a a = false
  | [] => rfl
  | c :: t => by
    simp only [lexLt, lt_irrefl, if_false, lexLt_irrefl t]

theorem lexLt_conn : ∀ a b : List Nat,
    lexLt a b = false → lexLt b a = false → a = b
  | [], [] => fun _ _ => rfl
  | [], _ :: _ => by intro h _; simp [lexLt] at h
  | _ :: _, [] => by intro _ h; simp [lexLt] at h
  | a :: as, b :: bs => by
    intro h1 h2
    rcases Nat.lt_trichotomy a b with h | h | h
    · rw [show lexLt (a :: as) (b :: bs) = true by simp [lexLt, h]] at h1
      cases h1
    · subst h
      simp only [lexLt, lt_irrefl, if_false] at h1 h2
      rw [lexLt_conn as bs h1 h2]
    · rw [show lexLt (b :: bs) (a :: as) = true by simp [lexLt, h]] at h2
      cases h2

theorem lexLt_total (a b : List Nat) (h : a ≠ b) :
    lexLt a b = true ∨ lexLt b a = true := by
  by_cases h1 : lexLt a b = true
  · exact Or.inl h1
  · by_cases h2 : lexLt b a = true
    · exact Or.inr h2
    · exact absurd (lexLt_conn a b (by simpa using h1) (by simpa using h2)) h

theorem insertPair_perm (p : List Nat × Json) :
    ∀ l, List.Perm (insertPair p l) (p :: l)
  | [] => List.Perm.refl _
  | q :: rest => by
    simp only [insertPair]
    by_cases h : lexLt p.1 q.1
    · simp [h]
    · rw [if_neg h]
      exact ((insertPair_perm p rest).cons q).trans (List.Perm.swap p q rest)

theorem sortPairs_perm : ∀ l, List.Perm (sortPairs l) l
  | [] => List.Perm.refl _
  | p :: rest =>
    (insertPair_perm p (sortPairs rest)).trans ((sortPairs_perm rest).cons p)

theorem pairsStrict_cons (q : List Nat × Json) (l : List (List Nat × Json)) :
    pairsStrict (q :: l) =
      ((match l.head? with
        | none => true
        | some r => lexLt q.1 r.1) && pairsStrict l) := by
  cases l with
  | nil => simp [pairsStrict]
  | cons r t => simp [pairsStrict]

theorem insertPair_head? (p : List Nat × Json) (l : List (List Nat × Json)) :
    (insertPair p l).head? = some p ∨ (insertPair p l).head? = l.head? := by
  cases l with
  | nil => simp [insertPair]
  | cons q rest =>
    simp only [insertPair]
    by_cases h : lexLt p.1 q.1
    · simp [h]
    · rw [if_neg h]
      simp

theorem insertPair_strict (p : List Nat × Json) :
    ∀ l, pairsStrict l = true →
    (∀ q ∈ l, lexLt p.1 q.1 = true ∨ lexLt q.1 p.1 = true) →
    pairsStrict (insertPair p l) = true
  | [] => by intro _ _; simp [insertPair, pairsStrict]
  | q :: rest => by
    intro hl hfresh
    simp only [insertPair]
    by_cases h : lexLt p.1 q.1
    · rw [if_pos h, pairsStrict_cons]
      simp [h, hl]
    · rw [if_neg h]
      have hqp : lexLt q.1 p.1 = true := by
        rcases hfresh q (by simp) with hc | hc
        · exact absurd hc h
        · exact hc
      rw [pairsStrict_cons] at hl
      rw [Bool.and_eq_true] at hl
      have hrec : pairsStrict (insertPair p rest) = true :=
        insertPair_strict p rest hl.2 (fun r hr => hfresh r (by simp [hr]))
      rw [pairsStrict_cons, Bool.and_eq_true]
      refine ⟨?_, hrec⟩
      rcases insertPair_head? p rest with hh | hh
      · rw [hh]
        simpa using hqp
      · rw [hh]
        cases hr : rest.head? with
        | none => simp
        | some r =>
          rw [hr] at hl
          simpa using hl.1

theorem sortPairs_strict : ∀ l : List (List Nat × Json),
    List.Pairwise (fun p q : List Nat × Json => p.1 ≠ q.1) l →
    pairsStrict (sortPairs l) = true
  | [] => by intro _; simp [sortPairs, pairsStrict]
  | p :: rest => by
    intro h
    rw [List.pairwise_cons] at h
    obtain ⟨hp, hrest⟩ := h
    apply insertPair_strict p (sortPairs rest) (sortPairs_strict rest hrest)
    intro q hq
    have hqmem : q ∈ rest := (sortPairs_perm rest).mem_iff.mp hq
    exact lexLt_total p.1 q.1 (hp q hqmem)

theorem sortPairs_id : ∀ l : List (List Nat × Json),
    pairsStrict l = true → sortPairs l = l
  | [] => by intro _; rfl
  | p :: rest => by
    intro h
    rw [pairsStrict_cons, Bool.and_eq_true] at h
    obtain ⟨hhead, htail⟩ := h
    simp only [sortPairs, sortPairs_id rest htail]
    cases rest with
    | nil => rfl
    | cons q rest' =>
      simp only [List.head?] at hhead
      simp only [insertPair, if_pos hhead]

theorem keyNotIn_spec : ∀ l : List (List Nat × Json), ∀ k,
    keyNotIn k l = true → ∀ q ∈ l, q.1 ≠ k
  | [] => by intro k _ q hq; simp at hq
  | p :: rest => by
    intro k h q hq
    simp only [keyNotIn, Bool.and_eq_true] at h
    rcases List.mem_cons.mp hq with rfl | hmem
    · intro hc
      rw [hc] at h
      simp at h
    · exact keyNotIn_spec rest k h.2 q hmem

theorem wfPairs_nodup : ∀ kvs : List (List Nat × Json), wfPairs kvs = true →
    List.Pairwise (fun p q : List Nat × Json => p.1 ≠ q.1) kvs
  | [] => by intro _; exact List.Pairwise.nil
  | (k, v) :: rest => by
    intro h
    simp only [wfPairs, Bool.and_eq_true] at h
    refine List.Pairwise.cons ?_ (wfPairs_nodup rest h.2)
    intro q hq
    exact (keyNotIn_spec rest k h.1.1.2 q hq).symm

theorem sortKeysPairs_eq_map (kvs : List (List Nat × Json)) :
    sortKeysPairs kvs = kvs.map (fun p => (p.1, sortKeys p.2)) := by
  induction kvs with
  | nil => rfl
  | cons p rest ih =>
    obtain ⟨k, v⟩ := p
    simp [sortKeysPairs, ih]

theorem sortKeysList_eq_map (xs : List Json) :
    sortKeysList xs = xs.map sortKeys := by
  induction xs with
  | nil => rfl
  | cons x rest ih => simp [sortKeysList, ih]

theorem wfPairs_values : ∀ kvs : List (List Nat × Json), wfPairs kvs = true →
    ∀ p ∈ kvs, wfJson p.2 = true
  | [] => by intro _ p hp; simp at hp
  | (k, v) :: rest => by
    intro h p hp
    simp only [wfPairs, Bool.and_eq_true] at h
    rcases List.mem_cons.mp hp with rfl | hmem
    · exact h.1.2
    · exact wfPairs_values rest h.2 p hmem

theorem oksPairs_all : ∀ l : List (List Nat × Json),
    (∀ p ∈ l, objKeysSorted p.2 = true) → oksPairs l = true
  | [] => by intro _; rfl
  | (k, v) :: rest => by
    intro h
    simp only [oksPairs, Bool.and_eq_true]
    exact ⟨h (k, v) (by simp), oksPairs_all rest (fun p hp => h p (by simp [hp]))⟩

theorem oksList_all : ∀ l : List Json,
    (∀ x ∈ l, objKeysSorted x = true) → oksList l = true
  | [] => by intro _; rfl
  | x :: rest => by
    intro h
    simp only [oksList, Bool.and_eq_true]
    exact ⟨h x (by simp), oksList_all rest (fun p hp => h p (by simp [hp]))⟩

theorem wfList_mem : ∀ xs : List Json, wfList xs = true → ∀ x ∈ xs, wfJson x = true
  | [] => by intro _ x hx; simp at hx
  | y :: rest => by
    intro h x hx
    simp only [wfList, Bool.and_eq_true] at h
    rcases List.mem_cons.mp hx with rfl | hmem
    · exact h.1
    · exact wfList_mem rest h.2 x hmem

mutual

theorem oks_sortKeys : ∀ m : Json, wfJson m = true → objKeysSorted (sortKeys m) = true
  | Json.null => by intro _; rfl
  | Json.bool b => by intro _; rfl
  | Json.num n => by intro _; rfl
  | Json.str s => by intro _; rfl
  | Json.arr xs => by
    intro h
    simp only [wfJson] at h
    simp only [sortKeys, objKeysSorted]
    exact oksL xs h
  | Json.obj kvs => by
    intro h
    simp only [wfJson] at h
    simp only [sortKeys, objKeysSorted, Bool.and_eq_true]
    constructor
    · apply sortPairs_strict
      rw [sortKeysPairs_eq_map]
      apply List.Pairwise.map
      · intro a b hab
        exact hab
      · exact wfPairs_nodup kvs h
    · apply oksPairs_all
      intro p hp
      have hp2 : p ∈ sortKeysPairs kvs :=
        (sortPairs_perm (sortKeysPairs kvs)).mem_iff.mp hp
      rw [sortKeysPairs_eq_map, List.mem_map] at hp2
      obtain ⟨q, hq, rfl⟩ := hp2
      exact oksP kvs h q hq

theorem oksL : ∀ xs : List Json, wfList xs = true → oksList (sortKeysList xs) = true
  | [] => by intro _; rfl
  | x :: rest => by
    intro h
    simp only [wfList, Bool.and_eq_true] at h
    simp only [sortKeysList, oksList, Bool.and_eq_true]
    exact ⟨oks_sortKeys x h.1, oksL rest h.2⟩

theorem oksP : ∀ kvs : List (List Nat × Json), wfPairs kvs = true →
    ∀ p ∈ kvs, objKeysSorted (sortKeys p.2) = true
  | [] => by intro _ p hp; simp at hp
  | (k, v) :: rest => by
    intro h p hp
    simp only [wfPairs, Bool.and_eq_true] at h
    rcases List.mem_cons.mp hp with rfl | hmem
    · exact oks_sortKeys v h.1.2
    · exact oksP rest h.2 p hmem

end

mutual

theorem sortKeys_id : ∀ m : Json, objKeysSorted m = true → sortKeys m = m
  | Json.null => by intro _; rfl
  | Json.bool b => by intro _; rfl
  | Json.num n => by intro _; rfl
  | Json.str s => by intro _; rfl
  | Json.arr xs => by
    intro h
    simp only [objKeysSorted] at h
    simp only [sortKeys, sortKeysList_id xs h]
  | Json.obj kvs => by
    intro h
    simp only [objKeysSorted, Bool.and_eq_true] at h
    have hvals : sortKeysPairs kvs = kvs := sortKeysPairs_id kvs h.2
    simp only [sortKeys, hvals, sortPairs_id kvs h.1]
  termination_by m => sizeOf m

theorem sortKeysList_id : ∀ xs : List Json, oksList xs = true → sortKeysList xs = xs
  | [] => by intro _; rfl
  | x :: rest => by
    intro h
    simp only [oksList, Bool.and_eq_true] at h
    simp only [sortKeysList, sortKeys_id x h.1, sortKeysList_id rest h.2]
  termination_by xs => sizeOf xs

theorem sortKeysPairs_id : ∀ kvs : List (List Nat × Json),
    oksPairs kvs = true → sortKeysPairs kvs = kvs
  | [] => by intro _; rfl
  | (k, v) :: rest => by
    intro h
    simp only [oksPairs, Bool.and_eq_true] at h
    simp only [sortKeysPairs, sortKeys_id v h.1, sortKeysPairs_id rest h.2]
  termination_by kvs => sizeOf kvs

end

/- Canonical JSON: the decoded value equals the original as Python values. -/

theorem lookupKey_mem : ∀ l : List (List Nat × Json), ∀ k v,
    lookupKey k l = some v → (k, v) ∈ l
  | [] => by intro k v h; simp [lookupKey] at h
  | (k', v') :: rest => by
    intro k v h
    simp only [lookupKey] at h
    by_cases hk : (k' == k) = true
    · rw [if_pos hk] at h
      cases h
      have : k' = k := by simpa using hk
      subst this
      simp
    · rw [if_neg hk] at h
      exact List.mem_cons_of_mem _ (lookupKey_mem rest k v h)

theorem lookupKey_isSome_of_mem : ∀ l : List (List Nat × Json), ∀ k v,
    (k, v) ∈ l → (lookupKey k l).isSome = true
  | [] => by intro k v h; simp at h
  | (k', v') :: rest => by
    intro k v h
    simp only [lookupKey]
    by_cases hk : (k' == k) = true
    · rw [if_pos hk]
      rfl
    · rw [if_neg hk]
      rcases List.mem_cons.mp h with heq | hmem
      · cases heq
        simp at hk
      · exact lookupKey_isSome_of_mem rest k v hmem

theorem lookupKey_nodup : ∀ l : List (List Nat × Json),
    List.Pairwise (fun p q : List Nat × Json => p.1 ≠ q.1) l →
    ∀ k v, (k, v) ∈ l → lookupKey k l = some v
  | [] => by intro _ k v h; simp at h
  | (k', v') :: rest => by
    intro h k v hv
    rw [List.pairwise_cons] at h
    rcases List.mem_cons.mp hv with heq | hmem
    · cases heq
      simp [lookupKey]
    · have hne : k' ≠ k := by
        have := h.1 (k, v) hmem
        simpa using this
      simp only [lookupKey]
      rw [if_neg (by simpa using hne)]
      exact lookupKey_nodup rest h.2 k v hmem

mutual

theorem pyEq_sortKeys : ∀ m : Json, wfJson m = true → PyEq (sortKeys m) m
  | Json.null => by intro _; exact PyEq.null
  | Json.bool b => by intro _; exact PyEq.bool b
  | Json.num n => by intro _; exact PyEq.num n
  | Json.str s => by intro _; exact PyEq.str s
  | Json.arr xs => by
    intro h
    simp only [wfJson] at h
    show PyEq (Json.arr (sortKeysList xs)) (Json.arr xs)
    refine PyEq.arr ?_ ?_
    · rw [sortKeysList_eq_map, List.length_map]
    · intro i x y hx hy
      rw [sortKeysList_eq_map, List.get?_map, hy] at hx
      simp only [Option.map_some'] at hx
      cases hx
      exact pyL xs h y (List.get?_mem hy)
  | Json.obj kvs => by
    intro h
    simp only [wfJson] at h
    show PyEq (Json.obj (sortPairs (sortKeysPairs kvs))) (Json.obj kvs)
    refine PyEq.obj ?_ ?_ ?_
    · rw [(sortPairs_perm (sortKeysPairs kvs)).length_eq, sortKeysPairs_eq_map,
        List.length_map]
    · intro k hsome
      rw [Option.isSome_iff_exists] at hsome
      obtain ⟨v, hv⟩ := hsome
      have hmem := lookupKey_mem _ k v hv
      have hmem2 : (k, v) ∈ sortKeysPairs kvs :=
        (sortPairs_perm (sortKeysPairs kvs)).mem_iff.mp hmem
      rw [sortKeysPairs_eq_map, List.mem_map] at hmem2
      obtain ⟨q, hq, hqe⟩ := hmem2
      have hk : q.1 = k := congrArg Prod.fst hqe
      have : (k, q.2) ∈ kvs := by
        rw [← hk]
        exact hq
      exact lookupKey_isSome_of_mem kvs k q.2 this
    · intro k v w hv hw
      have hmem := lookupKey_mem _ k v hv
      have hmem2 : (k, v) ∈ sortKeysPairs kvs :=
        (sortPairs_perm (sortKeysPairs kvs)).mem_iff.mp hmem
      rw [sortKeysPairs_eq_map, List.mem_map] at hmem2
      obtain ⟨q, hq, hqe⟩ := hmem2
      have hk : q.1 = k := congrArg Prod.fst hqe
      have hv2 : sortKeys q.2 = v := congrArg Prod.snd hqe
      have hmemq : (k, q.2) ∈ kvs := by
        rw [← hk]
        exact hq
      have hlook : lookupKey k kvs = some q.2 :=
        lookupKey_nodup kvs (wfPairs_nodup kvs h) k q.2 hmemq
      rw [hlook] at hw
      cases hw
      rw [← hv2]
      exact pyP kvs h q hq

theorem pyL : ∀ xs : List Json, wfList xs = true → ∀ y ∈ xs, PyEq (sortKeys y) y
  | [] => by intro _ y hy; simp at hy
  | x :: rest => by
    intro h y hy
    simp only [wfList, Bool.and_eq_true] at h
    rcases List.mem_cons.mp hy with rfl | hmem
    · exact pyEq_sortKeys y h.1
    · exact pyL rest h.2 y hmem

theorem pyP : ∀ kvs : List (List Nat × Json), wfPairs kvs = true →
    ∀ p ∈ kvs, PyEq (sortKeys p.2) p.2
  | [] => by intro _ p hp; simp at hp
  | (k, v) :: rest => by
    intro h p hp
    simp only [wfPairs, Bool.and_eq_true] at h
    rcases List.mem_cons.mp hp with rfl | hmem
    · exact pyEq_sortKeys v h.1.2
    · exact pyP rest h.2 p hmem

end

/- Canonical JSON: the encoding has no whitespace outside string literals. -/

theorem scan_litChar (c : Nat) (rest : List Nat) (h1 : ¬c = 34) (h2 : ¬c = 92) :
    noWsScan true (c :: rest) = noWsScan true rest := by
  simp [noWsScan, h1, h2]

theorem hexDig_ne (n : Nat) : ¬hexDig n = 34 ∧ ¬hexDig n = 92 := by
  unfold hexDig
  by_cases h : n < 10
  · rw [if_pos h]
    omega
  · rw [if_neg h]
    omega

theorem escChar_scan (c : Nat) (rest : List Nat) :
    noWsScan true (escChar c ++ rest) = noWsScan true rest := by
  by_cases h34 : c = 34
  · subst h34; rfl
  · by_cases h92 : c = 92
    · subst h92; rfl
    · by_cases h32 : c < 32
      · by_cases h8 : c = 8
        · subst h8; rfl
        · by_cases h9 : c = 9
          · subst h9; rfl
          · by_cases h10 : c = 10
            · subst h10; rfl
            · by_cases h12 : c = 12
              · subst h12; rfl
              · by_cases h13 : c = 13
                · subst h13; rfl
                · simp only [escChar, if_neg h34, if_neg h92, if_pos h32,
                    if_neg h8, if_neg h9, if_neg h10, if_neg h12, if_neg h13,
                    List.cons_append, List.nil_append]
                  show noWsSkip (117 :: 48 :: 48 :: hexDig (c / 16) ::
                    hexDig (c % 16) :: rest) = _
                  show noWsScan true (48 :: 48 :: hexDig (c / 16) ::
                    hexDig (c % 16) :: rest) = _
                  show noWsScan true (hexDig (c / 16) :: hexDig (c % 16) :: rest) = _
                  rw [scan_litChar _ _ (hexDig_ne _).1 (hexDig_ne _).2,
                    scan_litChar _ _ (hexDig_ne _).1 (hexDig_ne _).2]
      · simp only [escChar, if_neg h34, if_neg h92, if_neg h32,
          List.cons_append, List.nil_append]
        exact scan_litChar c rest h34 h92

theorem escStr_scan : ∀ (s rest : List Nat),
    noWsScan true (escStr s ++ rest) = noWsScan true rest
  | [], rest => by simp [escStr]
  | c :: s', rest => by
    have : escStr (c :: s') = escChar c ++ escStr s' := by simp [escStr]
    rw [this, List.append_assoc, escChar_scan, escStr_scan s' rest]

theorem scan_outChars : ∀ (l : List Nat),
    (∀ c ∈ l, jWs c = false ∧ ¬c = 34) → ∀ rest,
    noWsScan false (l ++ rest) = noWsScan false rest
  | [] => by intro _ rest; rfl
  | c :: t => by
    intro h rest
    have hc := h c (by simp)
    rw [List.cons_append]
    show noWsScan false (c :: (t ++ rest)) = _
    simp only [noWsScan, hc.1, Bool.false_eq_true, if_false, if_neg hc.2]
    exact scan_outChars t (fun d hd => h d (by simp [hd])) rest

mutual

theorem scanV : ∀ (m : Json) (rest : List Nat),
    noWsScan false (encJ m ++ rest) = noWsScan false rest
  | Json.null, rest => rfl
  | Json.bool true, rest => rfl
  | Json.bool false, rest => rfl
  | Json.num n, rest => by
    apply scan_outChars
    intro c hc
    have hdig : isDig c = true ∨ c = 45 := by
      cases n with
      | ofNat m =>
        simp only [encJ, intDigs] at hc
        exact Or.inl (natDigs_digits m c hc)
      | negSucc m =>
        simp only [encJ, intDigs, List.mem_cons] at hc
        rcases hc with rfl | hc
        · exact Or.inr rfl
        · exact Or.inl (natDigs_digits (m + 1) c hc)
    rcases hdig with hd | rfl
    · simp only [isDig, Bool.and_eq_true, decide_eq_true_eq] at hd
      constructor
      · simp only [jWs, Bool.or_eq_false_iff, beq_eq_false_iff_ne, ne_eq]
        omega
      · omega
    · exact ⟨by decide, by decide⟩
  | Json.str s, rest => by
    have hshape : encJ (Json.str s) ++ rest = 34 :: (escStr s ++ 34 :: rest) := by
      show (34 :: escStr s ++ [34]) ++ rest = _
      simp
    rw [hshape]
    show noWsScan true (escStr s ++ 34 :: rest) = _
    rw [escStr_scan]
    rfl
  | Json.arr xs, rest => by
    have hshape : encJ (Json.arr xs) ++ rest = 91 :: (encElems xs ++ 93 :: rest) := by
      show (91 :: encElems xs ++ [93]) ++ rest = _
      simp
    rw [hshape]
    show noWsScan false (encElems xs ++ 93 :: rest) = _
    rw [scanE xs (93 :: rest)]
    rfl
  | Json.obj kvs, rest => by
    have hshape : encJ (Json.obj kvs) ++ rest =
        123 :: (encMembers kvs ++ 125 :: rest) := by
      show (123 :: encMembers kvs ++ [125]) ++ rest = _
      simp
    rw [hshape]
    show noWsScan false (encMembers kvs ++ 125 :: rest) = _
    rw [scanM kvs (125 :: rest)]
    rfl

theorem scanE : ∀ (xs : List Json) (rest : List Nat),
    noWsScan false (encElems xs ++ rest) = noWsScan false rest
  | [], rest => rfl
  | [x], rest => by
    show noWsScan false (encElems [x] ++ rest) = _
    have : encElems [x] = encJ x := by simp [encElems]
    rw [this, scanV x rest]
  | x :: y :: ys, rest => by
    have hshape : encElems (x :: y :: ys) ++ rest =
        encJ x ++ (44 :: (encElems (y :: ys) ++ rest)) := by
      show (encJ x ++ 44 :: encElems (y :: ys)) ++ rest = _
      simp
    rw [hshape, scanV x _]
    show noWsScan false (encElems (y :: ys) ++ rest) = _
    rw [scanE (y :: ys) rest]

theorem scanM : ∀ (kvs : List (List Nat × Json)) (rest : List Nat),
    noWsScan false (encMembers kvs ++ rest) = noWsScan false rest
  | [], rest => rfl
  | [(k, v)], rest => by
    have hshape : encMembers [(k, v)] ++ rest =
        34 :: (escStr k ++ 34 :: (58 :: (encJ v ++ rest))) := by
      show (34 :: escStr k ++ 34 :: 58 :: encJ v) ++ rest = _
      simp
    rw [hshape]
    show noWsScan true (escStr k ++ 34 :: (58 :: (encJ v ++ rest))) = _
    rw [escStr_scan]
    show noWsScan false (encJ v ++ rest) = _
    rw [scanV v rest]
  | (k, v) :: (k₂, v₂) :: kvs', rest => by
    have hshape : encMembers ((k, v) :: (k₂, v₂) :: kvs') ++ rest =
        34 :: (escStr k ++ 34 :: (58 :: (encJ v ++
          44 :: (encMembers ((k₂, v₂) :: kvs') ++ rest)))) := by
      show ((34 :: escStr k ++ 34 :: 58 :: encJ v) ++
        44 :: encMembers ((k₂, v₂) :: kvs')) ++ rest = _
      simp
    rw [hshape]
    show noWsScan true (escStr k ++ 34 :: (58 :: (encJ v ++
      44 :: (encMembers ((k₂, v₂) :: kvs') ++ rest)))) = _
    rw [escStr_scan]
    show noWsScan false (encJ v ++
      44 :: (encMembers ((k₂, v₂) :: kvs') ++ rest)) = _
    rw [scanV v _]
    show noWsScan false (encMembers ((k₂, v₂) :: kvs') ++ rest) = _
    rw [scanM ((k₂, v₂) :: kvs') rest]

end

/-- The serializer inserts no whitespace between tokens. -/
theorem noWsOutside_encJ (m : Json) : noWsOutside (encJ m) = true := by
  unfold noWsOutside
  have h := scanV m []
  rw [List.append_nil] at h
  rw [h]
  rfl

/-- Non-ASCII characters are emitted literally. -/
theorem escChar_literal (c : Nat) (h : 128 ≤ c) : escChar c = [c] := by
  unfold escChar
  rw [if_neg (by omega), if_neg (by omega), if_neg (by omega)]

/-- Claim C9: for every JSON-representable manifest mapping (well-formed:
distinct keys, scalar text), decoding the canonical encoding with a
standard JSON decoder yields the mapping again (`PyEq` is Python `==` on
the decoded value), re-encoding the decoded value is byte-identical
(UTF-8 via `dumpsCanonicalJson`), keys are sorted at every nesting level,
no whitespace is inserted outside string literals, and non-ASCII
characters are preserved literally.  Decoding is modelled at the code
point layer; UTF-8 is applied by `dumpsCanonicalJson` and is injective on
scalar values. -/
theorem canonical_json_claim (m : Json) (hwf : wfJson m = true) :
    decodeJson (encJ (sortKeys m)) = some (sortKeys m) ∧
    PyEq (sortKeys m) m ∧
    (∀ d, decodeJson (encJ (sortKeys m)) = some d →
      dumpsCanonicalJson d = dumpsCanonicalJson m) ∧
    objKeysSorted (sortKeys m) = true ∧
    noWsOutside (encJ (sortKeys m)) = true ∧
    (∀ c, 128 ≤ c → escChar c = [c]) := by
  refine ⟨decodeJson_encJ (sortKeys m), pyEq_sortKeys m hwf, ?_,
    oks_sortKeys m hwf, noWsOutside_encJ (sortKeys m), escChar_literal⟩
  intro d hd
  rw [decodeJson_encJ (sortKeys m)] at hd
  cases hd
  unfold dumpsCanonicalJson
  rw [sortKeys_id (sortKeys m) (oks_sortKeys m hwf)]

/-- Witness for C9 at the concrete manifest-like value `mSample`. -/
theorem canonical_json_claim_witness :
    wfJson mSample = true ∧
    (decodeJson (encJ (sortKeys mSample)) = some (sortKeys mSample) ∧
     PyEq (sortKeys mSample) mSample ∧
     (∀ d, decodeJson (encJ (sortKeys mSample)) = some d →
       dumpsCanonicalJson d = dumpsCanonicalJson mSample) ∧
     objKeysSorted (sortKeys mSample) = true ∧
     noWsOutside (encJ (sortKeys mSample)) = true ∧
     (∀ c, 128 ≤ c → escChar c = [c])) :=
  ⟨by decide, canonical_json_claim mSample (by decide)⟩

/- Manifest stage: the merkle_root format check (claim C4). -/

theorem stripWsL_id (s : List Nat)
    (h : ∀ c, s.head? = some c → pyWs c = false) : stripWsL s = s := by
  cases s with
  | nil => rfl
  | cons c t =>
    simp only [stripWsL, h c rfl, Bool.false_eq_true, if_false]

theorem stripWs_id (s : List Nat) (h : ∀ c ∈ s, pyWs c = false) :
    stripWs s = s := by
  unfold stripWs
  rw [stripWsL_id s.reverse, List.reverse_reverse, stripWsL_id s]
  · intro c hc
    exact h c (by cases s with
      | nil => simp at hc
      | cons a t => rw [List.head?] at hc; cases hc; simp)
  · intro c hc
    apply h
    have hmem : c ∈ s.reverse := by
      cases hs : s.reverse with
      | nil => rw [hs] at hc; simp at hc
      | cons a t =>
        rw [hs] at hc
        rw [List.head?] at hc
        cases hc
        exact List.mem_cons_self _ _
    simpa using hmem

theorem hexDigit_not95 (c : Nat) (h : isHexDigit c = true) : ¬c = 95 := by
  intro hc
  rw [hc] at h
  simp [isHexDigit, isDig] at h

theorem allHex_digitsOk : ∀ l : List Nat,
    (∀ c ∈ l, isHexDigit c = true) → hexDigitsOk l = true
  | [] => by intro _; rfl
  | c :: rest => by
    intro h
    have hc := h c (by simp)
    simp only [hexDigitsOk, if_neg (hexDigit_not95 c hc), hc, Bool.true_and]
    exact allHex_digitsOk rest (fun d hd => h d (by simp [hd]))

theorem lowerHex_pyIntHexOk (s : List Nat) (hlen : s.length = 64)
    (h : ∀ c ∈ s, isDig c = true ∨ (97 ≤ c ∧ c ≤ 102)) :
    pyIntHexOk s = true := by
  have hhex : ∀ c ∈ s, isHexDigit c = true := by
    intro c hc
    rcases h c hc with hd | hd
    · simp [isHexDigit, hd]
    · simp only [isHexDigit, isDig, Bool.or_eq_true, Bool.and_eq_true,
        decide_eq_true_eq]
      omega
  have hbound : ∀ c ∈ s, 48 ≤ c ∧ c ≤ 102 := by
    intro c hc
    rcases h c hc with hd | hd
    · simp only [isDig, Bool.and_eq_true, decide_eq_true_eq] at hd
      omega
    · omega
  have hws : ∀ c ∈ s, pyWs c = false := by
    intro c hc
    have := hbound c hc
    simp only [pyWs, Bool.or_eq_false_iff, Bool.and_eq_false_iff,
      beq_eq_false_iff_ne, ne_eq, decide_eq_false_iff_not]
    omega
  unfold pyIntHexOk
  rw [stripWs_id s hws]
  cases s with
  | nil => simp at hlen
  | cons c rest =>
    have hc := h c (by simp)
    have hcb : 48 ≤ c ∧ c ≤ 102 := hbound c (by simp)
    have hnosign : ¬(c = 43 ∨ c = 45) := by
      rcases hc with hd | hd
      · simp only [isDig, Bool.and_eq_true, decide_eq_true_eq] at hd
        omega
      · omega
    simp only [pyHexSigned, if_neg hnosign]
    by_cases h48 : c = 48
    · subst h48
      simp only [pyHexNum, if_pos rfl]
      cases rest with
      | nil => rfl
      | cons d rest' =>
        have hdb := hbound d (by simp)
        have hnopre : ¬(d = 120 ∨ d = 88) := by
          rcases h d (by simp) with hd | hd
          · simp only [isDig, Bool.and_eq_true, decide_eq_true_eq] at hd
            omega
          · omega
        simp only [pyHexZero, if_neg hnopre]
        exact allHex_digitsOk (d :: rest') (fun e he => hhex e (by simp at he ⊢; tauto))
    · simp only [pyHexNum, if_neg h48, hexRun, hhex c (by simp), Bool.true_and]
      exact allHex_digitsOk rest (fun e he => hhex e (by simp [he]))

/-- Counterexample to claim C4: a merkle_root of 64 uppercase hex digits
passes `_is_hex_64` (Python `int(s, 16)` is case-insensitive), so
`_read_manifest` reports no `E_MANIFEST_SCHEMA` error for it. -/
theorem manifest_hex_claim_cex :
    upRootA.length = 64 ∧ (∀ c ∈ upRootA, c = 65) ∧
    isHex64 (some (Json.str upRootA)) = true ∧
    readManifestMerkle [(intKey, Json.obj [(merkleKey, Json.str upRootA)])] =
      Except.ok () :=
  ⟨by decide, by decide, by decide, rfl⟩

/-- Claim C4 as amended: the manifest stage rejects with
`E_MANIFEST_SCHEMA` whenever `integrity.merkle_root` is missing or is a
string whose length differs from 64, and accepts every 64-character
lowercase-hex string; the check is `len(s) == 64` together with Python
`int(s, 16)` parseability, so uppercase hex of length 64 is also
accepted at this stage. -/
theorem manifest_hex_claim_amended :
    (∀ kvs ikvs s, lookupKey intKey kvs = some (Json.obj ikvs) →
      lookupKey merkleKey ikvs = some (Json.str s) → s.length ≠ 64 →
      readManifestMerkle kvs = Except.error ECode.manifestSchema) ∧
    (∀ kvs ikvs, lookupKey intKey kvs = some (Json.obj ikvs) →
      lookupKey merkleKey ikvs = none →
      readManifestMerkle kvs = Except.error ECode.manifestSchema) ∧
    (∀ kvs ikvs s, lookupKey intKey kvs = some (Json.obj ikvs) →
      lookupKey merkleKey ikvs = some (Json.str s) → s.length = 64 →
      (∀ c ∈ s, isDig c = true ∨ (97 ≤ c ∧ c ≤ 102)) →
      readManifestMerkle kvs = Except.ok ()) ∧
    isHex64 (some (Json.str upRootA)) = true := by
  refine ⟨?_, ?_, ?_, by decide⟩
  · intro kvs ikvs s hint hmerk hlen
    unfold readManifestMerkle
    rw [hint]
    simp only [Option.getD_some]
    rw [hmerk]
    have : isHex64 (some (Json.str s)) = false := by
      simp only [isHex64, Bool.and_eq_false_iff]
      left
      simpa using hlen
    rw [this]
    rfl
  · intro kvs ikvs hint hmerk
    unfold readManifestMerkle
    rw [hint]
    simp only [Option.getD_some]
    rw [hmerk]
    rfl
  · intro kvs ikvs s hint hmerk hlen hlow
    unfold readManifestMerkle
    rw [hint]
    simp only [Option.getD_some]
    rw [hmerk]
    have : isHex64 (some (Json.str s)) = true := by
      simp only [isHex64, Bool.and_eq_true]
      exact ⟨by simpa using hlen, lowerHex_pyIntHexOk s hlen hlow⟩
    rw [this]
    rfl

/-- Witness for the amended C4 at a concrete manifest: a 63-character
root is rejected, a 64-character lowercase one accepted. -/
theorem manifest_hex_claim_amended_witness :
    (lookupKey intKey [(intKey, Json.obj [(merkleKey,
        Json.str (List.replicate 63 97))])] =
      some (Json.obj [(merkleKey, Json.str (List.replicate 63 97))]) ∧
     lookupKey merkleKey [(merkleKey, Json.str (List.replicate 63 97))] =
      some (Json.str (List.replicate 63 97)) ∧
     (List.replicate 63 97).length ≠ 64) ∧
    readManifestMerkle [(intKey, Json.obj [(merkleKey,
      Json.str (List.replicate 63 97))])] =
      Except.error ECode.manifestSchema :=
  ⟨⟨rfl, rfl, by decide⟩,
    manifest_hex_claim_amended.1
      [(intKey, Json.obj [(merkleKey, Json.str (List.replicate 63 97))])]
      [(merkleKey, Json.str (List.replicate 63 97))]
      (List.replicate 63 97) rfl rfl (by decide)⟩

/- Merkle fold (claim C7). -/

theorem insertFile_map_leaf (H : List Nat → List Nat) (x : List Nat × List Nat) :
    ∀ l, (insertFile x l).map (fun f => (utf8Enc f.1, merkleLeaf H f)) =
      insertLeaf (utf8Enc x.1, merkleLeaf H x)
        (l.map (fun f => (utf8Enc f.1, merkleLeaf H f)))
  | [] => rfl
  | y :: rest => by
    simp only [insertFile, insertLeaf]
    by_cases h : lexLt (utf8Enc x.1) (utf8Enc y.1)
    · simp [h]
    · rw [if_neg h, if_neg h]
      simp only [List.map_cons, List.cons.injEq]
      exact ⟨trivial, insertFile_map_leaf H x rest⟩

theorem sortFiles_map_leaf (H : List Nat → List Nat) :
    ∀ l, (sortFiles l).map (fun f => (utf8Enc f.1, merkleLeaf H f)) =
      sortLeaves (l.map (fun f => (utf8Enc f.1, merkleLeaf H f)))
  | [] => rfl
  | x :: rest => by
    simp only [sortFiles, sortLeaves, List.map_cons]
    rw [insertFile_map_leaf, sortFiles_map_leaf H rest]

/-- Claim C7: the Merkle root is the pairwise fold of the sorted per-file
leaves exactly as the spec describes it (`merkleRootSpec` is written from
the spec's words); on two files `a.txt = "a\n"`, `b.txt = "b\n"` the root
is `hex(H(H("a.txt\0a\n") || H("b.txt\0b\n")))`, and with no included
files it is `hex(H(empty))` — for every digest function `H`. -/
theorem merkle_fold_claim (H : List Nat → List Nat) :
    (∀ files, merkleRootOfFiles H files = merkleRootSpec H files) ∧
    merkleRootOfFiles H [fileA, fileB] =
      hexStr (H (H (utf8Enc fileA.1 ++ 0 :: fileA.2) ++
        H (utf8Enc fileB.1 ++ 0 :: fileB.2))) ∧
    merkleRootOfFiles H [] = hexStr (H []) := by
  refine ⟨?_, rfl, rfl⟩
  intro files
  unfold merkleRootOfFiles merkleRootSpec
  simp only [isExcluded]
  rw [show ((sortFiles (files.filter fun f =>
      !(f.1 == manifestName || sigPre.isPrefixOf f.1))).map (merkleLeaf H)) =
      ((sortFiles (files.filter fun f =>
        !(f.1 == manifestName || sigPre.isPrefixOf f.1))).map
        (fun f => (utf8Enc f.1, merkleLeaf H f))).map Prod.snd by
    rw [List.map_map]; rfl]
  rw [sortFiles_map_leaf]
  cases hm : (sortLeaves ((files.filter fun f =>
      !(f.1 == manifestName || sigPre.isPrefixOf f.1)).map
      (fun f => (utf8Enc f.1, merkleLeaf H f)))).map Prod.snd with
  | nil => simp
  | cons l ls => simp

/- Shard layout and symlink handling (claims C1 and C2). -/

/-- Claim C1 is violated by the code: a shard whose `sig/` contains the
extra entry `extra.bin` passes `_validate_root_layout` (which inspects
only the top-level names, dotfiles and symlinks — `REQUIRED_SIG_FILES`
is never consulted), and because `sig/` is excluded from the Merkle walk
the collected file list — hence the computed root — is identical to the
well-formed shard's, so no later stage can see the extra file either. -/
theorem layout_extra_sig_claim :
    validateRootLayout shardExtraSig = true ∧
    (∀ H : List Nat → List Nat,
      computeMerkleRootTree H shardExtraSig = computeMerkleRootTree H shardBase) :=
  ⟨by decide, fun _ => rfl⟩

/-- Claim C2 is violated by the code: a shard with a symlinked directory
`content/sub` passes the layout stage (the dotfile walk prunes symlinked
directories), the Merkle walk prunes it too and collects exactly the
files of the link-free shard (so the recomputed root matches), and the
content scan prunes it as well, recording no error — the symlink is
skipped silently everywhere, and `verify_shard` returns PASS. -/
theorem symlink_dir_skipped_claim :
    validateRootLayout shardLinkDir = true ∧
    (∀ H : List Nat → List Nat,
      computeMerkleRootTree H shardLinkDir = computeMerkleRootTree H shardBase) ∧
    (∀ sha : List Nat → List Nat,
      contentScan sha contentWithLink = contentScan sha contentBase) ∧
    (∀ sha : List Nat → List Nat, (contentScan sha contentWithLink).1 = []) :=
  ⟨by decide, fun _ => rfl, fun _ => rfl, fun _ => rfl⟩

/- The compiler: tier clamping, evidence handling, partial outputs and
the out_dir frame (claims C3, C5, C6, C10). -/

/-- dget after inserting the same key. -/
theorem dget_dinsert_self (k v : List Nat) : ∀ d, dget k (dinsert k v d) = some v
  | [] => by simp [dinsert, dget]
  | (k0, v0) :: rest => by
    cases hk : k0 == k <;> simp [dinsert, dget, hk, dget_dinsert_self k v rest]

/-- dget after inserting a different key. -/
theorem dget_dinsert_ne (k k2 v : List Nat) (h : (k2 == k) = false) :
    ∀ d, dget k (dinsert k2 v d) = dget k d
  | [] => by simp [dinsert, dget, h]
  | (k0, v0) :: rest => by
    by_cases hk : k0 = k2
    · subst hk
      simp [dinsert, dget, h]
    · have hb : (k0 == k2) = false := beq_eq_false_iff_ne.mpr hk
      simp [dinsert, dget, hb, dget_dinsert_ne k k2 v h rest]

/-- Claim C3's counterexample: the tier-5 candidate of c3In is not
rejected — its claim row is emitted with tier 0 (c3Rows is the claim-row
list of that run), and the whole compile returns normally. -/
theorem tier_claim_cex :
    c3Rows.map (fun r => r.tier) = [0] ∧ (compile0 c3In []).1 = BuildOutcome.ret true :=
  ⟨by decide, by decide⟩

/-- Claim C3 as amended: a candidate whose coerced tier is outside
VALID_TIERS is kept, not rejected — the tier is forced to 0 (lines
150-151), and any claim row pass 2 emits for the candidate carries
tier 0. -/
theorem tier_claim_amended (b32sha nfc cf : List Nat → List Nat) (ns : List Nat)
    (d : List (List Nat × List Nat)) (contentBytes sourceHash : List Nat) (c : Cand)
    (h : ([0, 1, 2, 3, 4] : List Int).contains (tierRaw c) = false) :
    tierOf c = 0 ∧
    ∀ cr pr sr,
      pass2Step b32sha nfc cf ns d contentBytes sourceHash c =
        Except.ok (some (cr, pr, sr)) → cr.tier = 0 := by
  have ht : tierOf c = 0 := by unfold tierOf; rw [h]; simp
  refine ⟨ht, ?_⟩
  intro cr pr sr hstep
  unfold pass2Step at hstep
  repeat' split at hstep
  all_goals
    first
    | (injection hstep; done)
    | (injection hstep with h9; injection h9; done)
    | (injection hstep with h9
       injection h9 with h8
       injection h8 with h7 h6
       rw [← h7]
       exact ht)

/-- Witness for tier_claim_amended at the tier-5 candidate. -/
theorem tier_claim_amended_witness :
    ([0, 1, 2, 3, 4] : List Int).contains (tierRaw cand5) = false ∧ tierOf cand5 = 0 :=
  ⟨by decide, (tier_claim_amended idCp idCp idCp [] [] [] [] cand5 (by decide)).1⟩

/-- Claim C5's counterexample: a run whose only candidate's evidence is
not found returns False (empty surviving claims), yet the freshly written
content/source.txt is left behind — nothing is cleaned up. -/
theorem cleanup_claim_cex :
    compile0 c5In [] = (BuildOutcome.ret false, [(contentSourcePath, [120])]) := by
  decide

/-- Claim C5 as amended: once the input stage passes (both inputs exist
and the source decodes), the final out_dir always contains
content/source.txt with the normalized bytes — on every failing path
(unparseable candidates, empty candidates, identity or ambiguous-evidence
abort, empty surviving claims) the partial output persists; the compiler
has no cleanup. -/
theorem cleanup_claim_amended
    (normalize shaHex b32sha nfc cf H sign : List Nat → List Nat)
    (parqE : List EntityRow → List Nat) (parqC : List ClaimRow → List Nat)
    (parqP : List ProvRow → List Nat) (parqS : List SpanRow → List Nat)
    (pub : List Nat) (verdict : List (List Nat × List Nat) → Bool)
    (cfg : CfgStrs) (inp : CompileIn) (pre : List (List Nat × List Nat))
    (raw : List Nat) (h1 : inp.sourceExists = true)
    (h2 : inp.candidatesExists = true) (h3 : inp.sourceText = some raw) :
    dget contentSourcePath
      (compileModel normalize shaHex b32sha nfc cf H sign parqE parqC parqP
        parqS pub verdict cfg inp pre).2 = some (utf8Enc (normalize raw)) := by
  unfold compileModel
  rw [h1, h2, h3]
  simp only [Bool.not_true, Bool.false_eq_true, if_false]
  repeat' split
  all_goals
    first
    | rw [dget_dinsert_self]
    | rw [dget_dinsert_ne contentSourcePath sigSigPath _ (by decide),
          dget_dinsert_ne contentSourcePath sigPubPath _ (by decide),
          dget_dinsert_ne contentSourcePath manifestName _ (by decide),
          dget_dinsert_ne contentSourcePath evidenceSpansPath _ (by decide),
          dget_dinsert_ne contentSourcePath graphProvenancePath _ (by decide),
          dget_dinsert_ne contentSourcePath graphClaimsPath _ (by decide),
          dget_dinsert_ne contentSourcePath graphEntitiesPath _ (by decide),
          dget_dinsert_self]

/-- Witness for cleanup_claim_amended at the empty-claims run. -/
theorem cleanup_claim_amended_witness :
    dget contentSourcePath
      (compileModel idCp idCp idCp idCp idCp idCp idCp pq0E pq0C pq0P pq0S []
        vTrue cfg0 c5In []).2 = some (utf8Enc (idCp xLit)) :=
  cleanup_claim_amended idCp idCp idCp idCp idCp idCp idCp pq0E pq0C pq0P pq0S
    [] vTrue cfg0 c5In [] xLit rfl rfl rfl

/-- Claim C6's counterexample: a candidate with non-empty subject,
predicate and evidence whose evidence occurs twice does NOT abort the
build when its object_type is invalid — the object_type gate (line 143)
runs before the span search, the candidate is skipped, and the whole
compile returns False instead of raising. -/
theorem evidence_claim_cex :
    bytesCount (needleOf candBogus) ababLit = 2 ∧
    pass2Step idCp idCp idCp [] [(sLit, sidX)] ababLit ababLit candBogus =
      Except.ok none ∧
    (compile0 c6In []).1 = BuildOutcome.ret false :=
  ⟨by decide, rfl, by decide⟩

/-- Claim C6 as amended: for a candidate that also passes the
object_type gate (and whose identity recomputations succeed), the
evidence trichotomy holds: zero occurrences of the needle bytes skip the
candidate, more than one aborts the build, and exactly one emits the
rows with byte_start the index of the occurrence and byte_end that
index plus the needle's byte length. -/
theorem evidence_claim_amended
    (b32sha nfc cf : List Nat → List Nat) (ns : List Nat)
    (d : List (List Nat × List Nat)) (contentBytes sourceHash : List Nat)
    (c : Cand) (sid ov cid : List Nat)
    (hs : (getStr c.subjectF).isEmpty = false)
    (hp : (getStr c.predicateF).isEmpty = false)
    (he : pyTruthy (evidenceOf c) = true)
    (hot : objTypeValidB c = true)
    (hsid : getOrRecompute b32sha nfc cf ns d (getStr c.subjectF) = some sid)
    (hov : (if objTypeStrOf c = entityLit then
             getOrRecompute b32sha nfc cf ns d (getStr c.objectF)
            else some (getStr c.objectF)) = some ov)
    (hcid : recomputeClaimId b32sha nfc cf sid (getStr c.predicateF) ov
             (objTypeStrOf c) = some cid) :
    (bytesCount (needleOf c) contentBytes = 0 →
      pass2Step b32sha nfc cf ns d contentBytes sourceHash c = Except.ok none) ∧
    (1 < bytesCount (needleOf c) contentBytes →
      pass2Step b32sha nfc cf ns d contentBytes sourceHash c =
        Except.error P2Err.ambiguousErr) ∧
    (bytesCount (needleOf c) contentBytes = 1 →
      pass2Step b32sha nfc cf ns d contentBytes sourceHash c =
        Except.ok (some
          (⟨cid, sid, getStr c.predicateF, ov, objTypeStrOf c, tierOf c⟩,
           ⟨provIdOf b32sha sourceHash (spanStart contentBytes c)
              (spanStop contentBytes c), cid, sourceHash,
            spanStart contentBytes c, spanStop contentBytes c⟩,
           ⟨spanIdOf b32sha sourceHash (spanStart contentBytes c)
              (spanStop contentBytes c) (pyStr (evidenceOf c)), sourceHash,
            spanStart contentBytes c, spanStop contentBytes c,
            pyStr (evidenceOf c)⟩))) := by
  have hc1 : ((getStr c.subjectF).isEmpty || (getStr c.predicateF).isEmpty ||
      !(pyTruthy (evidenceOf c))) = false := by rw [hs, hp, he]; rfl
  have hc2 : (!(objTypeValidB c)) = false := by rw [hot]; rfl
  refine ⟨?_, ?_, ?_⟩
  · intro hcnt
    simp [pass2Step, hc1, hc2, hsid, hov, hcnt]
  · intro hcnt
    have h0 : ¬(bytesCount (needleOf c) contentBytes = 0) := by omega
    simp [pass2Step, hc1, hc2, hsid, hov, h0, hcnt]
  · intro hcnt
    have h0 : ¬(bytesCount (needleOf c) contentBytes = 0) := by omega
    have h1 : ¬(1 < bytesCount (needleOf c) contentBytes) := by omega
    simp [pass2Step, hc1, hc2, hsid, hov, hcid, h0, h1]

/-- Witness for evidence_claim_amended at the unique-evidence run. -/
theorem evidence_claim_amended_witness :
    bytesCount (needleOf candX) [120] = 1 ∧
    pass2Step idCp idCp idCp [] [] [120] [120] candX =
      Except.ok (some (rowCX, rowPX, rowSX)) := by
  refine ⟨by decide, ?_⟩
  exact (evidence_claim_amended idCp idCp idCp [] [] [120] [120] candX sidX oLit
    cidX (by decide) (by decide) (by decide) (by decide) (by decide) (by decide)
    (by decide)).2.2 (by decide)

/-- Claim C10's counterexample: with the source file missing, the
FileNotFoundError of line 74 is raised before the rmtree of line 84, so
a pre-existing out_dir — stale content/source.txt included — survives
the failing build untouched. -/
theorem out_dir_claim_cex :
    compile0 c10In staleFs = (BuildOutcome.exn BuildExn.srcMissing, staleFs) ∧
    dget contentSourcePath (compile0 c10In staleFs).2 = some [7] :=
  ⟨by decide, by decide⟩

/-- Claim C10 as amended: the rmtree runs only after the two input
existence checks and the strict source read, so only once those pass is
the result — outcome and final contents both — independent of whatever
the output directory held before the build. -/
theorem out_dir_claim_amended
    (normalize shaHex b32sha nfc cf H sign : List Nat → List Nat)
    (parqE : List EntityRow → List Nat) (parqC : List ClaimRow → List Nat)
    (parqP : List ProvRow → List Nat) (parqS : List SpanRow → List Nat)
    (pub : List Nat) (verdict : List (List Nat × List Nat) → Bool)
    (cfg : CfgStrs) (inp : CompileIn) (pre pre2 : List (List Nat × List Nat))
    (raw : List Nat) (h1 : inp.sourceExists = true)
    (h2 : inp.candidatesExists = true) (h3 : inp.sourceText = some raw) :
    compileModel normalize shaHex b32sha nfc cf H sign parqE parqC parqP parqS
      pub verdict cfg inp pre =
    compileModel normalize shaHex b32sha nfc cf H sign parqE parqC parqP parqS
      pub verdict cfg inp pre2 := by
  unfold compileModel
  rw [h1, h2, h3]
  rfl

/-- Witness for out_dir_claim_amended: a stale out_dir and an empty one
give the same result once the inputs are present. -/
theorem out_dir_claim_amended_witness :
    compileModel idCp idCp idCp idCp idCp idCp idCp pq0E pq0C pq0P pq0S []
      vTrue cfg0 c3In staleFs =
    compileModel idCp idCp idCp idCp idCp idCp idCp pq0E pq0C pq0P pq0S []
      vTrue cfg0 c3In [] :=
  out_dir_claim_amended idCp idCp idCp idCp idCp idCp idCp pq0E pq0C pq0P pq0S
    [] vTrue cfg0 c3In staleFs [] xLit rfl rfl rfl

end Axm
